import Mathlib

/-!
Verification development for `pycontrails/models/cocip/wind_shear.py`.

The module under study has three functions:
`wind_shear_enhancement_factor`, `wind_shear_normal` and `wind_shear`.
They are embedded shallowly below, with the following modelling choices.

* Double-precision floats are idealised as exact rationals extended with
  `+inf`, `-inf` and `nan` (type `Fl`).  Rounding, overflow and signed
  zero are not modelled; the properties under study concern control flow,
  special values and small exact decimal constants.
* NumPy operands are modelled one-dimensionally: an operand (`Arr`) is a
  plain Python float (`pys`), a NumPy float64 scalar or 0-d array (`nps`),
  or a 1-d array (`vec`).  Broadcasting of a scalar or of a length-1 axis
  is supported, as in NumPy.
* The result of `** 0.5` is kept symbolically: intermediate values live in
  `EVal`, numbers of the form `a + b * sqrt r` (constructor `lin a b r`)
  together with the special values.  Order comparisons on this form are
  decided exactly by sign computations on rationals; they are proved
  correct against the real numbers further below (`EVal.toE`).
* Exceptions are modelled with `Except Err`: `ValueError` from broadcasting
  mismatches and from empty reductions (`np.max` / `np.min` of an empty
  array), `AttributeError` from accessing `.shape` on a plain Python float,
  `IndexError` from out-of-range indexing.
* `print` calls are dropped (pure no-ops), but the `np.min` reduction whose
  value is printed is still executed, since it can raise on empty arrays.
-/

/-- Exceptions that the embedded code can raise. -/
inductive Err where
  | valueError
  | attributeError
  | indexError
deriving DecidableEq, Repr

instance {e a : Type} [DecidableEq e] [DecidableEq a] :
    DecidableEq (Except e a) := fun x y =>
  match x, y with
  | Except.ok u, Except.ok v =>
    if h : u = v then Decidable.isTrue (by rw [h])
    else Decidable.isFalse (by intro hc; injection hc; exact h (by assumption))
  | Except.error u, Except.error v =>
    if h : u = v then Decidable.isTrue (by rw [h])
    else Decidable.isFalse (by intro hc; injection hc; exact h (by assumption))
  | Except.ok _, Except.error _ =>
    Decidable.isFalse (fun hc => Except.noConfusion hc)
  | Except.error _, Except.ok _ =>
    Decidable.isFalse (fun hc => Except.noConfusion hc)

/-- An idealised IEEE double: an exact rational or a special value. -/
inductive Fl where
  | fin (q : ℚ)
  | pinf
  | ninf
  | nan
deriving DecidableEq, Repr

namespace Fl

def isNan : Fl → Bool
  | nan => true
  | _ => false

def neg : Fl → Fl
  | fin q => fin (-q)
  | pinf => ninf
  | ninf => pinf
  | nan => nan

/-- IEEE addition on the idealised doubles. -/
def add : Fl → Fl → Fl
  | nan, _ => nan
  | _, nan => nan
  | pinf, ninf => nan
  | ninf, pinf => nan
  | pinf, _ => pinf
  | _, pinf => pinf
  | ninf, _ => ninf
  | _, ninf => ninf
  | fin a, fin b => fin (a + b)

/-- IEEE subtraction (`x - y = x + (-y)`). -/
def sub (x y : Fl) : Fl := add x (neg y)

/-- IEEE multiplication; `0 * inf = nan`. -/
def mul : Fl → Fl → Fl
  | nan, _ => nan
  | _, nan => nan
  | pinf, pinf => pinf
  | pinf, ninf => ninf
  | ninf, pinf => ninf
  | ninf, ninf => pinf
  | pinf, fin b => if b = 0 then nan else if 0 < b then pinf else ninf
  | fin a, pinf => if a = 0 then nan else if 0 < a then pinf else ninf
  | ninf, fin b => if b = 0 then nan else if 0 < b then ninf else pinf
  | fin a, ninf => if a = 0 then nan else if 0 < a then ninf else pinf
  | fin a, fin b => fin (a * b)

/-- IEEE division; `x / 0` is a signed infinity (zero is unsigned here),
`0 / 0` and `inf / inf` are `nan`, `x / inf = 0`. -/
def div : Fl → Fl → Fl
  | nan, _ => nan
  | _, nan => nan
  | pinf, pinf => nan
  | pinf, ninf => nan
  | ninf, pinf => nan
  | ninf, ninf => nan
  | pinf, fin b => if 0 ≤ b then pinf else ninf
  | ninf, fin b => if 0 ≤ b then ninf else pinf
  | fin _, pinf => fin 0
  | fin _, ninf => fin 0
  | fin a, fin b =>
    if b = 0 then (if a = 0 then nan else if 0 < a then pinf else ninf)
    else fin (a / b)

/-- `x ** 2` as it appears in the source. -/
def sq (x : Fl) : Fl := mul x x

end Fl

/-- An intermediate NumPy value after `** 0.5`: either `a + b * sqrt r`
(with radicand `r ≥ 0` in every reachable state) or a special value. -/
inductive EVal where
  | lin (a b r : ℚ)
  | pinf
  | ninf
  | nan
deriving DecidableEq, Repr

namespace EVal

def isNan : EVal → Bool
  | nan => true
  | _ => false

/-- Sign of `c + b * sqrt r` (for `r ≥ 0`), computed on rationals. -/
def sgnLin (c b r : ℚ) : Ordering :=
  if b = 0 ∨ r = 0 then compare c 0
  else if 0 < b then
    if 0 ≤ c then Ordering.gt
    else compare (b ^ 2 * r) (c ^ 2)
  else
    if c ≤ 0 then Ordering.lt
    else compare (c ^ 2) (b ^ 2 * r)

/-- Sign of `c + b * sqrt r - bp * sqrt s` (for `r, s ≥ 0`). -/
def sgn2 (c b r bp s : ℚ) : Ordering :=
  if bp = 0 ∨ s = 0 then sgnLin c b r
  else if b = 0 ∨ r = 0 then sgnLin c (-bp) s
  else
    match sgnLin c b r, compare bp 0 with
    | Ordering.lt, Ordering.eq => Ordering.lt
    | Ordering.lt, Ordering.gt => Ordering.lt
    | Ordering.eq, Ordering.gt => Ordering.lt
    | Ordering.gt, Ordering.eq => Ordering.gt
    | Ordering.gt, Ordering.lt => Ordering.gt
    | Ordering.eq, Ordering.lt => Ordering.gt
    | Ordering.eq, Ordering.eq => Ordering.eq
    | Ordering.gt, Ordering.gt => sgnLin (c ^ 2 + b ^ 2 * r - bp ^ 2 * s) (2 * c * b) r
    | Ordering.lt, Ordering.lt => (sgnLin (c ^ 2 + b ^ 2 * r - bp ^ 2 * s) (2 * c * b) r).swap

/-- Exact order comparison of two `EVal`s; `none` when either is `nan`
(IEEE comparisons with `nan` are unordered). -/
def ecmp : EVal → EVal → Option Ordering
  | nan, _ => none
  | _, nan => none
  | pinf, pinf => some Ordering.eq
  | pinf, _ => some Ordering.gt
  | _, pinf => some Ordering.lt
  | ninf, ninf => some Ordering.eq
  | ninf, _ => some Ordering.lt
  | _, ninf => some Ordering.gt
  | lin a b r, lin ap bp s => some (sgn2 (a - ap) b r bp s)

/-- Strict `<` as a boolean, false on `nan` (IEEE). -/
def ltB (x y : EVal) : Bool :=
  match ecmp x y with
  | some Ordering.lt => true
  | _ => false

/-- `≤` as a boolean, false on `nan` (IEEE). -/
def leB (x y : EVal) : Bool :=
  match ecmp x y with
  | some Ordering.lt => true
  | some Ordering.eq => true
  | _ => false

/-- `np.abs`. -/
def eabs : EVal → EVal
  | nan => nan
  | pinf => pinf
  | ninf => pinf
  | lin a b r =>
    match sgnLin a b r with
    | Ordering.lt => lin (-a) (-b) r
    | _ => lin a b r

/-- Subtraction of an `EVal` from a rational constant, `q - x`
(this is the only arithmetic the source performs on `** 0.5` results:
`shear_options - shear_max`). -/
def rsub (q : ℚ) : EVal → EVal
  | nan => nan
  | pinf => ninf
  | ninf => pinf
  | lin a b r => lin (q - a) (-b) r

/-- `np.maximum` of two values: propagates `nan`, otherwise the larger
(the first on ties). -/
def max2 (x y : EVal) : EVal :=
  if x.isNan ∨ y.isNan then nan
  else match ecmp x y with
    | some Ordering.lt => y
    | _ => x

end EVal

/-- `x ** 0.5` on an idealised double, yielding a symbolic square root.
A negative finite base cannot arise in the source (the base is a sum of
squares); NumPy would return `nan` there and we do the same. -/
def powHalf : Fl → EVal
  | Fl.nan => EVal.nan
  | Fl.pinf => EVal.pinf
  | Fl.ninf => EVal.nan
  | Fl.fin q => if q < 0 then EVal.nan else EVal.lin 0 1 q

/-- `np.max` over the elements of an array: error on an empty array,
otherwise a left fold of `np.maximum` (propagating `nan`). -/
def npmax : List EVal → Except Err EVal
  | [] => Except.error Err.valueError
  | x :: xs => Except.ok (xs.foldl EVal.max2 x)

/-- The index-tracking scan underlying `np.argmin`: `blt x bv` tests
strictly-less, so the first occurrence of the minimum is kept. -/
def argminScan {α : Type} (blt : α → α → Bool) : List α → α → Nat → Nat → Nat
  | [], _, _, best => best
  | x :: xs, bv, i, best =>
    if blt x bv then argminScan blt xs x (i + 1) i
    else argminScan blt xs bv (i + 1) best

/-- `np.argmin` over a (flattened) list: error on empty input; if any
element is `nan` the index of the first `nan` is returned (NumPy
semantics), otherwise the index of the first minimum. -/
def npargmin (l : List EVal) : Except Err Nat :=
  match l with
  | [] => Except.error Err.valueError
  | x :: xs =>
    match l.findIdx? EVal.isNan with
    | some i => Except.ok i
    | none => Except.ok (argminScan EVal.ltB xs x 1 0)

/-- Order comparison on idealised doubles (`none` iff a `nan` is involved). -/
def Fl.fcmp : Fl → Fl → Option Ordering
  | Fl.nan, _ => none
  | _, Fl.nan => none
  | Fl.pinf, Fl.pinf => some Ordering.eq
  | Fl.pinf, _ => some Ordering.gt
  | _, Fl.pinf => some Ordering.lt
  | Fl.ninf, Fl.ninf => some Ordering.eq
  | Fl.ninf, _ => some Ordering.lt
  | _, Fl.ninf => some Ordering.gt
  | Fl.fin a, Fl.fin b => some (compare a b)

/-- `np.minimum` of two doubles. -/
def Fl.min2 (x y : Fl) : Fl :=
  if x.isNan ∨ y.isNan then Fl.nan
  else match Fl.fcmp x y with
    | some Ordering.gt => y
    | _ => x

/-- `np.min` over the elements of an array (only its success matters to the
source: the value is merely printed). -/
def npminF : List Fl → Except Err Fl
  | [] => Except.error Err.valueError
  | x :: xs => Except.ok (xs.foldl Fl.min2 x)

/-- The shape of a NumPy value in this 1-d model: `s0` for a scalar or 0-d
array, `s1 n` for a 1-d array of length `n`. -/
inductive Shape where
  | s0
  | s1 (n : ℕ)
deriving DecidableEq, Repr

/-- A NumPy operand: a plain Python float, a NumPy float64 scalar (or 0-d
array, which has the same shape and elements), or a 1-d array. -/
inductive Arr (α : Type) where
  | pys (x : α)
  | nps (x : α)
  | vec (xs : List α)
deriving DecidableEq, Repr

namespace Arr

/-- The element list of an operand. -/
def elems {α : Type} : Arr α → List α
  | pys x => [x]
  | nps x => [x]
  | vec xs => xs

/-- Elementwise map (a unary NumPy ufunc); preserves the operand kind. -/
def amap {α β : Type} (f : α → β) : Arr α → Arr β
  | pys x => pys (f x)
  | nps x => nps (f x)
  | vec xs => vec (xs.map f)

/-- Accessing `.shape`: raises `AttributeError` on a plain Python float. -/
def shapeAttr {α : Type} : Arr α → Except Err Shape
  | pys _ => Except.error Err.attributeError
  | nps _ => Except.ok Shape.s0
  | vec xs => Except.ok (Shape.s1 xs.length)

/-- The broadcast shape of an operand (total; a plain float broadcasts as a
scalar even though its `.shape` attribute does not exist). -/
def bshape {α : Type} : Arr α → Shape
  | pys _ => Shape.s0
  | nps _ => Shape.s0
  | vec xs => Shape.s1 xs.length

end Arr

/-- Binary elementwise NumPy operation with broadcasting.  Scalars broadcast
against anything; a plain Python float result arises only from two plain
floats; 1-d arrays broadcast when their lengths agree or one length is 1;
otherwise `ValueError`. -/
def ewise (f : Fl → Fl → Fl) : Arr Fl → Arr Fl → Except Err (Arr Fl)
  | Arr.pys a, Arr.pys b => Except.ok (Arr.pys (f a b))
  | Arr.pys a, Arr.nps b => Except.ok (Arr.nps (f a b))
  | Arr.nps a, Arr.pys b => Except.ok (Arr.nps (f a b))
  | Arr.nps a, Arr.nps b => Except.ok (Arr.nps (f a b))
  | Arr.pys a, Arr.vec bs => Except.ok (Arr.vec (bs.map (fun b => f a b)))
  | Arr.nps a, Arr.vec bs => Except.ok (Arr.vec (bs.map (fun b => f a b)))
  | Arr.vec as_, Arr.pys b => Except.ok (Arr.vec (as_.map (fun a => f a b)))
  | Arr.vec as_, Arr.nps b => Except.ok (Arr.vec (as_.map (fun a => f a b)))
  | Arr.vec as_, Arr.vec bs =>
    if as_.length = bs.length then Except.ok (Arr.vec (List.zipWith f as_ bs))
    else match as_, bs with
      | [a], bs => Except.ok (Arr.vec (bs.map (fun b => f a b)))
      | as_, [b] => Except.ok (Arr.vec (as_.map (fun a => f a b)))
      | _, _ => Except.error Err.valueError

/-- `shear_options = [2e-3, 4e-3, 6e-3]` from the source. -/
def shear_options : List ℚ := [2 / 1000, 4 / 1000, 6 / 1000]

/-- The bucket-selection block shared verbatim by `wind_shear` and
`wind_shear_normal` (source lines 160-170 resp. 96-105):

    shear_distance = []
    for shear in shear_options:
        shear_distance.append(np.abs(shear_options - shear_max))
    index_min = np.argmin(shear_distance)
    chosen_shear = shear_options[index_min]

The loop body does not use the loop variable, so three identical distance
rows are appended; `np.argmin` runs over the flattened 3 x 3 matrix. -/
def selectBucket (shear_max : EVal) : Except Err ℚ := do
  let shear_distance :=
    shear_options.map (fun _shear =>
      shear_options.map (fun b => EVal.eabs (EVal.rsub b shear_max)))
  let index_min ← npargmin shear_distance.flatten
  match shear_options.get? index_min with
  | some c => Except.ok c
  | none => Except.error Err.indexError

/-- `np.where(np.full(shape, True), chosen, _)`: a constant-filled array of
the given shape (a 0-d array is represented like a NumPy scalar). -/
def whereFill (shp : Shape) (c : ℚ) : Arr Fl :=
  match shp with
  | Shape.s0 => Arr.nps (Fl.fin c)
  | Shape.s1 n => Arr.vec (List.replicate n (Fl.fin c))

/-- The magnitude pipeline shared by both shear functions:
`du_dz = (u_top - u_btm)/dz`, `dv_dz = (v_top - v_btm)/dz`,
`ds_dz = (du_dz**2 + dv_dz**2) ** 0.5`. -/
def wind_shear_mag (u_wind_top u_wind_btm v_wind_top v_wind_btm : Arr Fl)
    (dz : Fl) : Except Err (Arr EVal) := do
  let du_dz ← ewise Fl.div (← ewise Fl.sub u_wind_top u_wind_btm) (Arr.pys dz)
  let dv_dz ← ewise Fl.div (← ewise Fl.sub v_wind_top v_wind_btm) (Arr.pys dz)
  let s ← ewise Fl.add (du_dz.amap Fl.sq) (dv_dz.amap Fl.sq)
  Except.ok (s.amap powHalf)

/-- The signed directional gradient of `wind_shear_normal`:
`dsn_dz = dv_dz * cos_a - du_dz * sin_a`. -/
def wind_shear_normal_dsn (u_wind_top u_wind_btm v_wind_top v_wind_btm
    cos_a sin_a : Arr Fl) (dz : Fl) : Except Err (Arr Fl) := do
  let du_dz ← ewise Fl.div (← ewise Fl.sub u_wind_top u_wind_btm) (Arr.pys dz)
  let dv_dz ← ewise Fl.div (← ewise Fl.sub v_wind_top v_wind_btm) (Arr.pys dz)
  ewise Fl.sub (← ewise Fl.mul dv_dz cos_a) (← ewise Fl.mul du_dz sin_a)

/-- `wind_shear` (source lines 123-186).  After the gradient pipeline:
`shear_max = np.max(ds_dz)`; the shared bucket selection; the `np.isnan`
override to `2e-3`; `mask = np.full(ds_dz.shape, True)`;
`ds_dz = np.where(mask, chosen_shear, ds_dz)`; `min_shear = np.min(ds_dz)`
(printed only); return the constant-filled array. -/
def wind_shear (u_wind_top u_wind_btm v_wind_top v_wind_btm : Arr Fl)
    (dz : Fl) : Except Err (Arr Fl) := do
  let ds_dz ← wind_shear_mag u_wind_top u_wind_btm v_wind_top v_wind_btm dz
  let shear_max ← npmax ds_dz.elems
  let chosen0 ← selectBucket shear_max
  let nan_present := ds_dz.elems.any EVal.isNan
  let chosen_shear := if nan_present then (2 / 1000 : ℚ) else chosen0
  let shp ← ds_dz.shapeAttr
  let out := whereFill shp chosen_shear
  let _min_shear ← npminF out.elems
  Except.ok out

/-- `wind_shear_normal` (source lines 52-120).  Computes `dsn_dz` and the
magnitude `ds_dz`; `shear_max = np.max(ds_dz)` (the magnitude, never the
signed array); shared bucket selection; `np.isnan(dsn_dz)` override;
`mask = np.full(dsn_dz.shape, True)`;
`dsn_dz = np.where(mask, -chosen_shear, dsn_dz)`; `np.min` (printed only);
return the constant-filled array. -/
def wind_shear_normal (u_wind_top u_wind_btm v_wind_top v_wind_btm
    cos_a sin_a : Arr Fl) (dz : Fl) : Except Err (Arr Fl) := do
  let dsn_dz ← wind_shear_normal_dsn u_wind_top u_wind_btm v_wind_top
    v_wind_btm cos_a sin_a dz
  let ds_dz ← wind_shear_mag u_wind_top u_wind_btm v_wind_top v_wind_btm dz
  let shear_max ← npmax ds_dz.elems
  let chosen0 ← selectBucket shear_max
  let nan_present := dsn_dz.elems.any Fl.isNan
  let chosen_shear := if nan_present then (2 / 1000 : ℚ) else chosen0
  let shp ← dsn_dz.shapeAttr
  let out := whereFill shp (-chosen_shear)
  let _min_shear ← npminF out.elems
  Except.ok out

/-- `wind_shear_enhancement_factor` (source lines 11-49).  The
exponentiation `ratio ** wind_shear_enhancement_exponent` is abstracted as
an arbitrary elementwise operation `powOp`, because its value is provably
discarded: the function computes
`enhancement_factor = 0.5 * (1.0 + ratio ** exponent)` and then returns the
plain Python float `hijacked_factor = 1.0` unconditionally. -/
def wind_shear_enhancement_factor (powOp : Fl → Fl → Fl)
    (contrail_depth effective_vertical_resolution
     wind_shear_enhancement_exponent : Arr Fl) : Except Err (Arr Fl) := do
  let res_over_depth ←
    ewise Fl.div effective_vertical_resolution contrail_depth
  let powr ← ewise powOp res_over_depth wind_shear_enhancement_exponent
  let _enhancement_factor ←
    ewise Fl.mul (Arr.pys (Fl.fin (1 / 2)))
      (← ewise Fl.add (Arr.pys (Fl.fin 1)) powr)
  let hijacked_factor : Arr Fl := Arr.pys (Fl.fin 1)
  Except.ok hijacked_factor

/-- Boolean strict-less in a linear order (the comparison `np.argmin`
effectively performs once `nan` has been excluded). -/
def bltO {α : Type} [LinearOrder α] (x y : α) : Bool := decide (x < y)

/-- The number of elements an output of the given shape has. -/
def shapeSize : Shape → ℕ
  | Shape.s0 => 1
  | Shape.s1 n => n

namespace Arr

/-- Is the operand a plain Python float (no `.shape` attribute)? -/
def isPys {α : Type} : Arr α → Bool
  | pys _ => true
  | _ => false

end Arr

/-- NumPy broadcasting on shapes in this 1-d model. -/
def joinShape : Shape → Shape → Except Err Shape
  | Shape.s0, t => Except.ok t
  | t, Shape.s0 => Except.ok t
  | Shape.s1 n, Shape.s1 m =>
    if n = m then Except.ok (Shape.s1 n)
    else if n = 1 then Except.ok (Shape.s1 m)
    else if m = 1 then Except.ok (Shape.s1 n)
    else Except.error Err.valueError

/-- The broadcast of the four wind-component shapes, associated the way the
gradient pipeline combines them. -/
def windShape4 (u_wind_top u_wind_btm v_wind_top v_wind_btm : Arr Fl) :
    Except Err Shape := do
  joinShape (← joinShape u_wind_top.bshape u_wind_btm.bshape)
    (← joinShape v_wind_top.bshape v_wind_btm.bshape)

/-- The broadcast of the wind-component shapes together with the axis
projection shapes, associated the way `dsn_dz` is computed. -/
def windShapeN (u_wind_top u_wind_btm v_wind_top v_wind_btm
    cos_a sin_a : Arr Fl) : Except Err Shape := do
  let sdu ← joinShape u_wind_top.bshape u_wind_btm.bshape
  let sdv ← joinShape v_wind_top.bshape v_wind_btm.bshape
  joinShape (← joinShape sdv cos_a.bshape) (← joinShape sdu sin_a.bshape)

/-- The specification-side bucket choice: the candidate of
`{2e-3, 4e-3, 6e-3}` whose distance `|b - M|` to the scalar `M` is
smallest, ties resolved to the smaller candidate. -/
def specBucket (M : EVal) : ℚ :=
  if EVal.leB (EVal.eabs (EVal.rsub (2 / 1000) M))
       (EVal.eabs (EVal.rsub (4 / 1000) M)) &&
     EVal.leB (EVal.eabs (EVal.rsub (2 / 1000) M))
       (EVal.eabs (EVal.rsub (6 / 1000) M)) then 2 / 1000
  else if EVal.leB (EVal.eabs (EVal.rsub (4 / 1000) M))
       (EVal.eabs (EVal.rsub (6 / 1000) M)) then 4 / 1000
  else 6 / 1000

/-- The spec-side reimplementation of the bucket selection: one distance
vector `|shear_options - shear_max|` and a single `np.argmin` over it. -/
def selectBucketVec (shear_max : EVal) : Except Err ℚ := do
  let shear_distance :=
    shear_options.map (fun b => EVal.eabs (EVal.rsub b shear_max))
  let index_min ← npargmin shear_distance
  match shear_options.get? index_min with
  | some c => Except.ok c
  | none => Except.error Err.indexError


/-! ### Ghost semantics: interpreting `EVal` into the extended reals -/

/-- The real number denoted by the linear form `a + b * sqrt r`. -/
noncomputable def linR (a b r : ℚ) : ℝ :=
  (a : ℝ) + (b : ℝ) * Real.sqrt (r : ℝ)

namespace EVal

/-- Ghost interpretation of an `EVal` in the extended reals; `nan` (always
excluded by hypothesis where `toE` is used) is mapped to `0`. -/
noncomputable def toE : EVal → EReal
  | lin a b r => ((linR a b r : ℝ) : EReal)
  | pinf => ⊤
  | ninf => ⊥
  | nan => 0

/-- Well-formedness: the radicand is nonnegative.  Every value constructed
by the embedded program satisfies this. -/
def WF : EVal → Prop
  | lin _ _ r => 0 ≤ r
  | _ => True

end EVal

lemma compare_rat_cast (p q : ℚ) : compare p q = compare (p : ℝ) (q : ℝ) := by
  rcases lt_trichotomy p q with h | h | h
  · rw [compare_lt_iff_lt.2 h, compare_lt_iff_lt.2 (by exact_mod_cast h)]
  · rw [h, compare_eq_iff_eq.2 rfl, compare_eq_iff_eq.2 rfl]
  · rw [compare_gt_iff_gt.2 h, compare_gt_iff_gt.2 (by exact_mod_cast h)]

lemma compare_sub_zero (x y : ℝ) : compare (x - y) 0 = compare x y := by
  rcases lt_trichotomy x y with h | h | h
  · rw [compare_lt_iff_lt.2 h, compare_lt_iff_lt.2 (by linarith)]
  · rw [compare_eq_iff_eq.2 h, compare_eq_iff_eq.2 (by linarith)]
  · rw [compare_gt_iff_gt.2 h, compare_gt_iff_gt.2 (by linarith)]

lemma compare_sq_nonneg {x y : ℝ} (hx : 0 ≤ x) (hy : 0 ≤ y) :
    compare x y = compare (x ^ 2) (y ^ 2) := by
  rcases lt_trichotomy x y with h | h | h
  · rw [compare_lt_iff_lt.2 h, compare_lt_iff_lt.2 (by nlinarith)]
  · rw [compare_eq_iff_eq.2 h, compare_eq_iff_eq.2 (by rw [h])]
  · rw [compare_gt_iff_gt.2 h, compare_gt_iff_gt.2 (by nlinarith)]

lemma compare_sq_neg {x y : ℝ} (hx : x < 0) (hy : y < 0) :
    compare x y = (compare (x ^ 2) (y ^ 2)).swap := by
  rcases lt_trichotomy x y with h | h | h
  · rw [compare_lt_iff_lt.2 h, compare_gt_iff_gt.2 (by nlinarith)]; rfl
  · rw [compare_eq_iff_eq.2 h, compare_eq_iff_eq.2 (by rw [h])]; rfl
  · rw [compare_gt_iff_gt.2 h, compare_lt_iff_lt.2 (by nlinarith)]; rfl

lemma sgnLin_correct (c b r : ℚ) (hr : 0 ≤ r) :
    EVal.sgnLin c b r = compare (linR c b r) 0 := by
  unfold EVal.sgnLin linR
  by_cases h0 : b = 0 ∨ r = 0
  · rw [if_pos h0]
    have hz : (b : ℝ) * Real.sqrt (r : ℝ) = 0 := by
      rcases h0 with h | h
      · simp [h]
      · simp [h]
    rw [hz, add_zero, compare_rat_cast]
    norm_num
  · rw [if_neg h0]
    push_neg at h0
    obtain ⟨hb, hrne⟩ := h0
    have hrpos : (0 : ℝ) < (r : ℝ) := by
      have : (0 : ℚ) < r := lt_of_le_of_ne hr (Ne.symm hrne)
      exact_mod_cast this
    have hs : 0 < Real.sqrt (r : ℝ) := Real.sqrt_pos.2 hrpos
    by_cases hbpos : 0 < b
    · have hbR : (0 : ℝ) < (b : ℝ) := by exact_mod_cast hbpos
      rw [if_pos hbpos]
      by_cases hc : 0 ≤ c
      · rw [if_pos hc]
        have hcR : (0 : ℝ) ≤ (c : ℝ) := by exact_mod_cast hc
        exact (compare_gt_iff_gt.2
          (add_pos_of_nonneg_of_pos hcR (mul_pos hbR hs))).symm
      · rw [if_neg hc]
        push_neg at hc
        have hcR : (c : ℝ) < 0 := by exact_mod_cast hc
        have e1 : (c : ℝ) + (b : ℝ) * Real.sqrt (r : ℝ) =
            (b : ℝ) * Real.sqrt (r : ℝ) - (-(c : ℝ)) := by ring
        rw [e1, compare_sub_zero,
          compare_sq_nonneg (le_of_lt (mul_pos hbR hs)) (by linarith),
          mul_pow, Real.sq_sqrt (le_of_lt hrpos), compare_rat_cast]
        push_cast
        ring_nf
    · rw [if_neg hbpos]
      have hbneg : b < 0 := lt_of_le_of_ne (not_lt.1 hbpos) hb
      have hbR : (b : ℝ) < 0 := by exact_mod_cast hbneg
      by_cases hc : c ≤ 0
      · rw [if_pos hc]
        have hcR : (c : ℝ) ≤ 0 := by exact_mod_cast hc
        exact (compare_lt_iff_lt.2
          (add_neg_of_nonpos_of_neg hcR (mul_neg_of_neg_of_pos hbR hs))).symm
      · rw [if_neg hc]
        push_neg at hc
        have hcR : (0 : ℝ) < (c : ℝ) := by exact_mod_cast hc
        have e1 : (c : ℝ) + (b : ℝ) * Real.sqrt (r : ℝ) =
            (c : ℝ) - (-(b : ℝ)) * Real.sqrt (r : ℝ) := by ring
        rw [e1, compare_sub_zero,
          compare_sq_nonneg (le_of_lt hcR)
            (le_of_lt (mul_pos (by linarith) hs)),
          mul_pow, Real.sq_sqrt (le_of_lt hrpos), compare_rat_cast]
        push_cast
        ring_nf

lemma compare_mul_sqrt (bp s : ℚ) (hspos : (0 : ℝ) < (s : ℝ)) :
    compare bp 0 = compare ((bp : ℝ) * Real.sqrt (s : ℝ)) 0 := by
  have hs : 0 < Real.sqrt (s : ℝ) := Real.sqrt_pos.2 hspos
  rcases lt_trichotomy bp 0 with h | h | h
  · rw [compare_lt_iff_lt.2 h, compare_lt_iff_lt.2
      (mul_neg_of_neg_of_pos (by exact_mod_cast h) hs)]
  · rw [h]
    rw [compare_eq_iff_eq.2 rfl, compare_eq_iff_eq.2 (by norm_num)]
  · rw [compare_gt_iff_gt.2 h, compare_gt_iff_gt.2
      (mul_pos (by exact_mod_cast h) hs)]

lemma sgn2_correct (c b r bp s : ℚ) (hr : 0 ≤ r) (hs : 0 ≤ s) :
    EVal.sgn2 c b r bp s =
      compare ((c : ℝ) + (b : ℝ) * Real.sqrt (r : ℝ))
        ((bp : ℝ) * Real.sqrt (s : ℝ)) := by
  unfold EVal.sgn2
  by_cases h0 : bp = 0 ∨ s = 0
  · rw [if_pos h0]
    have hz : (bp : ℝ) * Real.sqrt (s : ℝ) = 0 := by
      rcases h0 with h | h
      · simp [h]
      · simp [h]
    rw [hz, sgnLin_correct c b r hr]
    rfl
  · rw [if_neg h0]
    push_neg at h0
    obtain ⟨hbp, hsne⟩ := h0
    have hspos : (0 : ℝ) < (s : ℝ) := by
      have : (0 : ℚ) < s := lt_of_le_of_ne hs (Ne.symm hsne)
      exact_mod_cast this
    by_cases h1 : b = 0 ∨ r = 0
    · rw [if_pos h1]
      have hz : (b : ℝ) * Real.sqrt (r : ℝ) = 0 := by
        rcases h1 with h | h
        · simp [h]
        · simp [h]
      have e1 : (c : ℝ) + (-bp : ℚ) * Real.sqrt (s : ℝ) =
          ((c : ℝ) + (b : ℝ) * Real.sqrt (r : ℝ)) -
            (bp : ℝ) * Real.sqrt (s : ℝ) := by
        rw [hz]; push_cast; ring
      rw [sgnLin_correct c (-bp) s hs]
      unfold linR
      rw [e1, compare_sub_zero]
    · rw [if_neg h1]
      push_neg at h1
      obtain ⟨hb, hrne⟩ := h1
      have hrpos : (0 : ℝ) < (r : ℝ) := by
        have : (0 : ℚ) < r := lt_of_le_of_ne hr (Ne.symm hrne)
        exact_mod_cast this
      have hU : EVal.sgnLin c b r =
          compare ((c : ℝ) + (b : ℝ) * Real.sqrt (r : ℝ)) 0 :=
        sgnLin_correct c b r hr
      have hV : compare bp 0 =
          compare ((bp : ℝ) * Real.sqrt (s : ℝ)) 0 :=
        compare_mul_sqrt bp s hspos
      set U : ℝ := (c : ℝ) + (b : ℝ) * Real.sqrt (r : ℝ) with hUdef
      set V : ℝ := (bp : ℝ) * Real.sqrt (s : ℝ) with hVdef
      have hsq : EVal.sgnLin (c ^ 2 + b ^ 2 * r - bp ^ 2 * s) (2 * c * b) r =
          compare (U ^ 2) (V ^ 2) := by
        rw [sgnLin_correct _ _ _ hr]
        unfold linR
        have e2 : ((c ^ 2 + b ^ 2 * r - bp ^ 2 * s : ℚ) : ℝ) +
            ((2 * c * b : ℚ) : ℝ) * Real.sqrt (r : ℝ) = U ^ 2 - V ^ 2 := by
          rw [hUdef, hVdef]
          have er : Real.sqrt (r : ℝ) ^ 2 = (r : ℝ) :=
            Real.sq_sqrt (le_of_lt hrpos)
          have es : Real.sqrt (s : ℝ) ^ 2 = (s : ℝ) :=
            Real.sq_sqrt (le_of_lt hspos)
          push_cast
          nlinarith [er, es]
        rw [e2, compare_sub_zero]
      rw [hU, hV]
      rcases lt_trichotomy U 0 with hu | hu | hu <;>
        rcases lt_trichotomy V 0 with hv | hv | hv
      · rw [compare_lt_iff_lt.2 hu, compare_lt_iff_lt.2 hv, hsq,
          compare_sq_neg hu hv]
      · rw [compare_lt_iff_lt.2 hu, compare_eq_iff_eq.2 hv,
          compare_lt_iff_lt.2 (show U < V by rw [hv]; exact hu)]
        try rfl
      · rw [compare_lt_iff_lt.2 hu, compare_gt_iff_gt.2 hv,
          compare_lt_iff_lt.2 (by linarith)]
        try rfl
      · rw [compare_eq_iff_eq.2 hu, compare_lt_iff_lt.2 hv,
          compare_gt_iff_gt.2 (show V < U by rw [hu]; exact hv)]
        try rfl
      · rw [compare_eq_iff_eq.2 hu, compare_eq_iff_eq.2 hv,
          compare_eq_iff_eq.2 (show U = V by rw [hu, hv])]
        try rfl
      · rw [compare_eq_iff_eq.2 hu, compare_gt_iff_gt.2 hv,
          compare_lt_iff_lt.2 (show U < V by rw [hu]; exact hv)]
        try rfl
      · rw [compare_gt_iff_gt.2 hu, compare_lt_iff_lt.2 hv,
          compare_gt_iff_gt.2 (by linarith)]
        try rfl
      · rw [compare_gt_iff_gt.2 hu, compare_eq_iff_eq.2 hv,
          compare_gt_iff_gt.2 (show V < U by rw [hv]; exact hu)]
        try rfl
      · rw [compare_gt_iff_gt.2 hu, compare_gt_iff_gt.2 hv, hsq,
          compare_sq_nonneg (le_of_lt hu) (le_of_lt hv)]

lemma compare_coe_ereal (u v : ℝ) :
    compare ((u : EReal)) ((v : EReal)) = compare u v := by
  rcases lt_trichotomy u v with h | h | h
  · rw [compare_lt_iff_lt.2 h, compare_lt_iff_lt.2 (EReal.coe_lt_coe_iff.2 h)]
  · rw [compare_eq_iff_eq.2 h, compare_eq_iff_eq.2 (by exact_mod_cast h)]
  · rw [compare_gt_iff_gt.2 h, compare_gt_iff_gt.2 (EReal.coe_lt_coe_iff.2 h)]

/-- The exact comparator agrees with the order of the extended reals on
well-formed, non-`nan` values. -/
lemma ecmp_correct {x y : EVal} (hx : x.WF) (hy : y.WF)
    (hnx : x.isNan = false) (hny : y.isNan = false) :
    EVal.ecmp x y = some (compare x.toE y.toE) := by
  cases x <;> cases y <;>
    simp only [EVal.isNan] at hnx hny <;>
    first
      | exact Bool.noConfusion hnx
      | exact Bool.noConfusion hny
      | skip
  case lin.lin a b r ap bp s =>
    have hr : (0 : ℚ) ≤ r := hx
    have hs : (0 : ℚ) ≤ s := hy
    show some (EVal.sgn2 (a - ap) b r bp s) = _
    rw [sgn2_correct (a - ap) b r bp s hr hs]
    unfold EVal.toE linR
    rw [compare_coe_ereal]
    have e1 : ((a - ap : ℚ) : ℝ) + (b : ℝ) * Real.sqrt (r : ℝ) =
        ((a : ℝ) + (b : ℝ) * Real.sqrt (r : ℝ)) -
          ((ap : ℝ) + (bp : ℝ) * Real.sqrt (s : ℝ)) +
          (bp : ℝ) * Real.sqrt (s : ℝ) := by push_cast; ring
    rcases lt_trichotomy ((a : ℝ) + (b : ℝ) * Real.sqrt (r : ℝ))
      ((ap : ℝ) + (bp : ℝ) * Real.sqrt (s : ℝ)) with h | h | h
    · rw [compare_lt_iff_lt.2 h, compare_lt_iff_lt.2 (by rw [e1]; linarith)]
    · rw [compare_eq_iff_eq.2 h, compare_eq_iff_eq.2 (by rw [e1, h]; ring)]
    · rw [compare_gt_iff_gt.2 h, compare_gt_iff_gt.2 (by rw [e1]; linarith)]
  case lin.pinf a b r =>
    show some Ordering.lt = _
    rw [show EVal.toE (EVal.lin a b r) = ((linR a b r : ℝ) : EReal) from rfl,
      show EVal.toE EVal.pinf = ⊤ from rfl,
      compare_lt_iff_lt.2 (EReal.coe_lt_top _)]
  case lin.ninf a b r =>
    show some Ordering.gt = _
    rw [show EVal.toE (EVal.lin a b r) = ((linR a b r : ℝ) : EReal) from rfl,
      show EVal.toE EVal.ninf = ⊥ from rfl,
      compare_gt_iff_gt.2 (EReal.bot_lt_coe _)]
  case pinf.lin a b r =>
    show some Ordering.gt = _
    rw [show EVal.toE (EVal.lin a b r) = ((linR a b r : ℝ) : EReal) from rfl,
      show EVal.toE EVal.pinf = ⊤ from rfl,
      compare_gt_iff_gt.2 (EReal.coe_lt_top _)]
  case pinf.pinf =>
    show some Ordering.eq = _
    rw [compare_eq_iff_eq.2 rfl]
  case pinf.ninf =>
    show some Ordering.gt = _
    rw [show EVal.toE EVal.pinf = ⊤ from rfl,
      show EVal.toE EVal.ninf = ⊥ from rfl,
      compare_gt_iff_gt.2 (by simp)]
  case ninf.lin a b r =>
    show some Ordering.lt = _
    rw [show EVal.toE (EVal.lin a b r) = ((linR a b r : ℝ) : EReal) from rfl,
      show EVal.toE EVal.ninf = ⊥ from rfl,
      compare_lt_iff_lt.2 (EReal.bot_lt_coe _)]
  case ninf.pinf =>
    show some Ordering.lt = _
    rw [show EVal.toE EVal.pinf = ⊤ from rfl,
      show EVal.toE EVal.ninf = ⊥ from rfl,
      compare_lt_iff_lt.2 (by simp)]
  case ninf.ninf =>
    show some Ordering.eq = _
    rw [compare_eq_iff_eq.2 rfl]

lemma ltB_correct {x y : EVal} (hx : x.WF) (hy : y.WF)
    (hnx : x.isNan = false) (hny : y.isNan = false) :
    EVal.ltB x y = decide (x.toE < y.toE) := by
  unfold EVal.ltB
  rw [ecmp_correct hx hy hnx hny]
  rcases lt_trichotomy x.toE y.toE with h | h | h
  · rw [compare_lt_iff_lt.2 h]
    simp [h]
  · rw [compare_eq_iff_eq.2 h]
    simp [h]
  · rw [compare_gt_iff_gt.2 h]
    simp [not_lt.2 (le_of_lt h)]

lemma leB_correct {x y : EVal} (hx : x.WF) (hy : y.WF)
    (hnx : x.isNan = false) (hny : y.isNan = false) :
    EVal.leB x y = decide (x.toE ≤ y.toE) := by
  unfold EVal.leB
  rw [ecmp_correct hx hy hnx hny]
  rcases lt_trichotomy x.toE y.toE with h | h | h
  · rw [compare_lt_iff_lt.2 h]
    simp [le_of_lt h]
  · rw [compare_eq_iff_eq.2 h]
    simp [le_of_eq h]
  · rw [compare_gt_iff_gt.2 h]
    simp [not_le.2 h]

lemma WF_powHalf (x : Fl) : (powHalf x).WF := by
  cases x with
  | fin q =>
    by_cases hq : q < 0 <;> simp [powHalf, hq, EVal.WF]
    exact le_of_not_lt hq
  | pinf => trivial
  | ninf => trivial
  | nan => trivial

lemma WF_rsub (q : ℚ) {x : EVal} (h : x.WF) : (EVal.rsub q x).WF := by
  cases x <;> simp_all [EVal.rsub, EVal.WF]

lemma WF_eabs {x : EVal} (h : x.WF) : (EVal.eabs x).WF := by
  cases x with
  | lin a b r =>
    rcases hs : EVal.sgnLin a b r <;> simp_all [EVal.eabs, hs, EVal.WF]
  | pinf => trivial
  | ninf => trivial
  | nan => trivial

lemma WF_max2 {x y : EVal} (hx : x.WF) (hy : y.WF) : (EVal.max2 x y).WF := by
  unfold EVal.max2
  by_cases h : x.isNan = true ∨ y.isNan = true
  · simp [h]
    trivial
  · simp [h]
    rcases EVal.ecmp x y with _ | o
    · exact hx
    · cases o <;> simp_all

lemma isNan_rsub (q : ℚ) (x : EVal) :
    (EVal.rsub q x).isNan = x.isNan := by
  cases x <;> rfl

lemma isNan_eabs (x : EVal) : (EVal.eabs x).isNan = x.isNan := by
  cases x with
  | lin a b r =>
    rcases hs : EVal.sgnLin a b r <;> simp [EVal.eabs, hs, EVal.isNan]
  | pinf => rfl
  | ninf => rfl
  | nan => rfl

lemma max2_mem {x y : EVal} (hx : x.isNan = false) (hy : y.isNan = false) :
    EVal.max2 x y = x ∨ EVal.max2 x y = y := by
  unfold EVal.max2
  simp [hx, hy]
  rcases EVal.ecmp x y with _ | o
  · exact Or.inl rfl
  · cases o <;> simp

lemma max2_ge {x y : EVal} (hx : x.WF) (hy : y.WF)
    (hnx : x.isNan = false) (hny : y.isNan = false) :
    x.toE ≤ (EVal.max2 x y).toE ∧ y.toE ≤ (EVal.max2 x y).toE := by
  unfold EVal.max2
  simp [hnx, hny]
  rw [ecmp_correct hx hy hnx hny]
  rcases lt_trichotomy x.toE y.toE with h | h | h
  · rw [compare_lt_iff_lt.2 h]
    exact ⟨le_of_lt h, le_refl _⟩
  · rw [compare_eq_iff_eq.2 h]
    exact ⟨le_refl _, le_of_eq h.symm⟩
  · rw [compare_gt_iff_gt.2 h]
    exact ⟨le_refl _, le_of_lt h⟩

lemma foldl_max2_spec (xs : List EVal) :
    ∀ x : EVal,
      (∀ y ∈ x :: xs, y.isNan = false) → (∀ y ∈ x :: xs, y.WF) →
      xs.foldl EVal.max2 x ∈ x :: xs ∧
        ∀ y ∈ x :: xs, y.toE ≤ (xs.foldl EVal.max2 x).toE := by
  induction xs with
  | nil =>
    intro x _ _
    exact ⟨List.mem_singleton.2 rfl, by simp⟩
  | cons z zs ih =>
    intro x hnan hwf
    have hxn : x.isNan = false := hnan x (by simp)
    have hzn : z.isNan = false := hnan z (by simp)
    have hxw : x.WF := hwf x (by simp)
    have hzw : z.WF := hwf z (by simp)
    have hmn : (EVal.max2 x z).isNan = false := by
      rcases max2_mem hxn hzn with h | h <;> rw [h] <;> assumption
    have hmw : (EVal.max2 x z).WF := WF_max2 hxw hzw
    have ih2 := ih (EVal.max2 x z)
      (by
        intro y hy
        rcases List.mem_cons.1 hy with h | h
        · rw [h]; exact hmn
        · exact hnan y (by simp [h]))
      (by
        intro y hy
        rcases List.mem_cons.1 hy with h | h
        · rw [h]; exact hmw
        · exact hwf y (by simp [h]))
    constructor
    · have hm := ih2.1
      rcases List.mem_cons.1 hm with h | h
      · rcases max2_mem hxn hzn with h2 | h2 <;>
          rw [List.foldl_cons, h, h2] <;> simp
      · simp [List.foldl_cons, List.mem_cons.2 (Or.inr (List.mem_cons.2 (Or.inr h)))]
    · intro y hy
      have hb := max2_ge hxw hzw hxn hzn
      have hbound := ih2.2
      rw [List.foldl_cons]
      rcases List.mem_cons.1 hy with h | h
      · rw [h]
        exact le_trans hb.1 (hbound _ (by simp))
      · rcases List.mem_cons.1 h with h2 | h2
        · rw [h2]
          exact le_trans hb.2 (hbound _ (by simp))
        · exact hbound y (by simp [h2])

lemma argminScan_congr {α β : Type} (f : α → β) (b1 : α → α → Bool)
    (b2 : β → β → Bool) :
    ∀ (l : List α) (bv : α) (i best : Nat),
      (∀ x ∈ l, ∀ y, (y = bv ∨ y ∈ l) → b1 x y = b2 (f x) (f y)) →
      argminScan b1 l bv i best = argminScan b2 (l.map f) (f bv) i best := by
  intro l
  induction l with
  | nil => intro bv i best _; rfl
  | cons x xs ih =>
    intro bv i best h
    have hx : b1 x bv = b2 (f x) (f bv) :=
      h x (by simp) bv (Or.inl rfl)
    simp only [List.map_cons, argminScan, hx]
    by_cases hc : b2 (f x) (f bv) = true
    · rw [if_pos hc, if_pos hc]
      exact ih x (i + 1) i (by
        intro u hu y hy
        rcases hy with hy | hy
        · exact h u (by simp [hu]) y (Or.inr (by simp [hy]))
        · exact h u (by simp [hu]) y (Or.inr (by simp [hy])))
    · rw [if_neg hc, if_neg hc]
      exact ih bv (i + 1) best (by
        intro u hu y hy
        rcases hy with hy | hy
        · exact h u (by simp [hu]) y (Or.inl hy)
        · exact h u (by simp [hu]) y (Or.inr (by simp [hy])))

lemma scan9_eq {α : Type} [LinearOrder α] (d1 d2 d3 : α) :
    argminScan bltO [d2, d3, d1, d2, d3, d1, d2, d3] d1 1 0 =
    argminScan bltO [d2, d3] d1 1 0 := by
  by_cases h21 : d2 < d1
  · by_cases h32 : d3 < d2
    · have n13 : ¬ d1 < d3 := not_lt.2 (le_of_lt (h32.trans h21))
      have n23 : ¬ d2 < d3 := not_lt.2 (le_of_lt h32)
      simp [argminScan, bltO, h21, h32, n13, n23, lt_irrefl]
    · have n12 : ¬ d1 < d2 := not_lt.2 (le_of_lt h21)
      simp [argminScan, bltO, h21, h32, n12, lt_irrefl]
  · by_cases h31 : d3 < d1
    · have n13 : ¬ d1 < d3 := not_lt.2 (le_of_lt h31)
      have n23 : ¬ d2 < d3 :=
        not_lt.2 (le_of_lt (lt_of_lt_of_le h31 (not_lt.1 h21)))
      simp [argminScan, bltO, h21, h31, n13, n23, lt_irrefl]
    · simp [argminScan, bltO, h21, h31, lt_irrefl]

lemma scan3_closed {α : Type} [LinearOrder α] (d1 d2 d3 : α) :
    argminScan bltO [d2, d3] d1 1 0 =
    if d1 ≤ d2 ∧ d1 ≤ d3 then 0 else if d2 ≤ d3 then 1 else 2 := by
  by_cases h21 : d2 < d1
  · have h12 : ¬ (d1 ≤ d2 ∧ d1 ≤ d3) := by
      intro hc
      exact absurd h21 (not_lt.2 hc.1)
    by_cases h32 : d3 < d2
    · have : ¬ d2 ≤ d3 := not_le.2 h32
      simp [argminScan, bltO, h21, h32, h12, this]
    · simp [argminScan, bltO, h21, h32, h12, not_lt.1 h32]
  · by_cases h31 : d3 < d1
    · have h12 : ¬ (d1 ≤ d2 ∧ d1 ≤ d3) := by
        intro hc
        exact absurd h31 (not_lt.2 hc.2)
      have h23 : ¬ d2 ≤ d3 :=
        not_le.2 (lt_of_lt_of_le h31 (not_lt.1 h21))
      simp [argminScan, bltO, h21, h31, h12, h23]
    · simp [argminScan, bltO, h21, h31, not_lt.1 h21, not_lt.1 h31]

lemma selectBucket_eq_spec (M : EVal) (hwf : M.WF) (hn : M.isNan = false) :
    selectBucket M = Except.ok (specBucket M) := by
  have hw1 : (EVal.eabs (EVal.rsub (2 / 1000) M)).WF := WF_eabs (WF_rsub _ hwf)
  have hw2 : (EVal.eabs (EVal.rsub (4 / 1000) M)).WF := WF_eabs (WF_rsub _ hwf)
  have hw3 : (EVal.eabs (EVal.rsub (6 / 1000) M)).WF := WF_eabs (WF_rsub _ hwf)
  have hn1 : (EVal.eabs (EVal.rsub (2 / 1000) M)).isNan = false := by
    rw [isNan_eabs, isNan_rsub]; exact hn
  have hn2 : (EVal.eabs (EVal.rsub (4 / 1000) M)).isNan = false := by
    rw [isNan_eabs, isNan_rsub]; exact hn
  have hn3 : (EVal.eabs (EVal.rsub (6 / 1000) M)).isNan = false := by
    rw [isNan_eabs, isNan_rsub]; exact hn
  set e1 := EVal.eabs (EVal.rsub (2 / 1000) M) with he1
  set e2 := EVal.eabs (EVal.rsub (4 / 1000) M) with he2
  set e3 := EVal.eabs (EVal.rsub (6 / 1000) M) with he3
  have hP : ∀ z : EVal, (z = e1 ∨ z = e2 ∨ z = e3) →
      z.WF ∧ z.isNan = false := by
    intro z hz
    rcases hz with h | h | h <;> rw [h] <;> exact ⟨by assumption, by assumption⟩
  have hcond : ∀ x ∈ [e2, e3, e1, e2, e3, e1, e2, e3], ∀ y : EVal,
      (y = e1 ∨ y ∈ [e2, e3, e1, e2, e3, e1, e2, e3]) →
      EVal.ltB x y = bltO x.toE y.toE := by
    intro x hx y hy
    have hx3 : x = e1 ∨ x = e2 ∨ x = e3 := by
      simp at hx
      tauto
    have hy3 : y = e1 ∨ y = e2 ∨ y = e3 := by
      rcases hy with h | h
      · exact Or.inl h
      · simp at h
        tauto
    obtain ⟨hxw, hxn⟩ := hP x hx3
    obtain ⟨hyw, hyn⟩ := hP y hy3
    rw [ltB_correct hxw hyw hxn hyn]
    rfl
  have hfind : List.findIdx? EVal.isNan
      [e1, e2, e3, e1, e2, e3, e1, e2, e3] = none := by
    simp [List.findIdx?_cons, hn1, hn2, hn3]
  have hscan : argminScan EVal.ltB [e2, e3, e1, e2, e3, e1, e2, e3] e1 1 0 =
      if e1.toE ≤ e2.toE ∧ e1.toE ≤ e3.toE then 0
      else if e2.toE ≤ e3.toE then 1 else 2 := by
    rw [argminScan_congr EVal.toE EVal.ltB bltO _ _ _ _ hcond]
    simp only [List.map_cons, List.map_nil]
    rw [scan9_eq, scan3_closed]
  have hflat : selectBucket M =
      (npargmin [e1, e2, e3, e1, e2, e3, e1, e2, e3]).bind
        (fun index_min =>
          match shear_options.get? index_min with
          | some c => Except.ok c
          | none => Except.error Err.indexError) := by
    rw [he1, he2, he3]
    rfl
  have hnp : npargmin [e1, e2, e3, e1, e2, e3, e1, e2, e3] =
      Except.ok (argminScan EVal.ltB [e2, e3, e1, e2, e3, e1, e2, e3] e1 1 0) := by
    show (match List.findIdx? EVal.isNan
        [e1, e2, e3, e1, e2, e3, e1, e2, e3] with
      | some i => Except.ok i
      | none =>
        Except.ok (argminScan EVal.ltB [e2, e3, e1, e2, e3, e1, e2, e3] e1 1 0)) = _
    rw [hfind]
  rw [hflat, hnp]
  simp only [Except.bind]
  rw [hscan]
  unfold specBucket
  rw [← he1, ← he2, ← he3,
    leB_correct hw1 hw2 hn1 hn2, leB_correct hw1 hw3 hn1 hn3,
    leB_correct hw2 hw3 hn2 hn3]
  by_cases hA : e1.toE ≤ e2.toE ∧ e1.toE ≤ e3.toE
  · simp [hA, hA.1, hA.2, shear_options, Except.bind]
  · rw [if_neg hA]
    by_cases hB : e2.toE ≤ e3.toE
    · have : ¬ (decide (e1.toE ≤ e2.toE) && decide (e1.toE ≤ e3.toE)) = true := by
        simp
        intro h1
        exact not_le.1 (fun h2 => hA ⟨h1, h2⟩)
      simp [hB, this, shear_options, Except.bind]
    · have hand : ¬ (decide (e1.toE ≤ e2.toE) && decide (e1.toE ≤ e3.toE)) = true := by
        simp
        intro h1
        exact not_le.1 (fun h2 => hA ⟨h1, h2⟩)
      simp [hB, hand, shear_options, Except.bind]

lemma selectBucket_nan : selectBucket EVal.nan = Except.ok (2 / 1000) := rfl

lemma selectBucket_pinf : selectBucket EVal.pinf = Except.ok (2 / 1000) := rfl

lemma foldl_max2_WF (xs : List EVal) :
    ∀ x : EVal, x.WF → (∀ y ∈ xs, y.WF) → (xs.foldl EVal.max2 x).WF := by
  induction xs with
  | nil => intro x hx _; exact hx
  | cons z zs ih =>
    intro x hx hall
    rw [List.foldl_cons]
    exact ih _ (WF_max2 hx (hall z (by simp)))
      (fun y hy => hall y (by simp [hy]))

lemma foldl_max2_nonNan (xs : List EVal) :
    ∀ x : EVal, x.isNan = false → (∀ y ∈ xs, y.isNan = false) →
      (xs.foldl EVal.max2 x).isNan = false := by
  induction xs with
  | nil => intro x hx _; exact hx
  | cons z zs ih =>
    intro x hx hall
    rw [List.foldl_cons]
    have hz : z.isNan = false := hall z (by simp)
    have hm : (EVal.max2 x z).isNan = false := by
      rcases max2_mem hx hz with h | h <;> rw [h] <;> assumption
    exact ih _ hm (fun y hy => hall y (by simp [hy]))

lemma whereFill_elems (shp : Shape) (c : ℚ) :
    (whereFill shp c).elems = List.replicate (shapeSize shp) (Fl.fin c) := by
  cases shp <;> rfl

lemma npminF_replicate (n : ℕ) (h : n ≠ 0) (x : Fl) :
    ∃ v, npminF (List.replicate n x) = Except.ok v := by
  cases n with
  | zero => exact absurd rfl h
  | succ m =>
    exact ⟨(List.replicate m x).foldl Fl.min2 x, rfl⟩

lemma elems_ne_nil_of_npmax {l : List EVal} {M : EVal}
    (h : npmax l = Except.ok M) : l ≠ [] := by
  intro hl
  rw [hl] at h
  exact Except.noConfusion h

/-- Every element produced by the magnitude pipeline is well-formed. -/
lemma wind_shear_mag_WF {ut ub vt vb : Arr Fl} {dz : Fl} {dsA : Arr EVal}
    (h : wind_shear_mag ut ub vt vb dz = Except.ok dsA) :
    ∀ y ∈ dsA.elems, y.WF := by
  unfold wind_shear_mag at h
  rcases h1 : ewise Fl.sub ut ub with e | d1
  · rw [h1] at h; exact Except.noConfusion h
  rw [h1] at h
  simp only [Bind.bind, Except.bind] at h
  rcases h2 : ewise Fl.div d1 (Arr.pys dz) with e | du
  · rw [h2] at h; exact Except.noConfusion h
  rw [h2] at h
  simp only [Bind.bind, Except.bind] at h
  rcases h3 : ewise Fl.sub vt vb with e | d2
  · rw [h3] at h; exact Except.noConfusion h
  rw [h3] at h
  simp only [Bind.bind, Except.bind] at h
  rcases h4 : ewise Fl.div d2 (Arr.pys dz) with e | dv
  · rw [h4] at h; exact Except.noConfusion h
  rw [h4] at h
  simp only [Bind.bind, Except.bind] at h
  rcases h5 : ewise Fl.add (du.amap Fl.sq) (dv.amap Fl.sq) with e | s
  · rw [h5] at h; exact Except.noConfusion h
  rw [h5] at h
  simp only [Bind.bind, Except.bind] at h
  have : dsA = s.amap powHalf := by
    injection h with h
    exact h.symm
  rw [this]
  intro y hy
  cases s with
  | pys x =>
    simp [Arr.amap, Arr.elems] at hy
    rw [hy]; exact WF_powHalf x
  | nps x =>
    simp [Arr.amap, Arr.elems] at hy
    rw [hy]; exact WF_powHalf x
  | vec xs =>
    simp [Arr.amap, Arr.elems] at hy
    obtain ⟨x, _, hx⟩ := hy
    rw [← hx]; exact WF_powHalf x

lemma specBucket_mem (M : EVal) : specBucket M ∈ shear_options := by
  unfold specBucket
  split_ifs <;> simp [shear_options]

lemma selectBucket_ok (M : EVal) (hwf : M.WF) :
    ∃ c0, selectBucket M = Except.ok c0 ∧ c0 ∈ shear_options := by
  by_cases hn : M.isNan = true
  · have hM : M = EVal.nan := by cases M <;> simp_all [EVal.isNan]
    rw [hM, selectBucket_nan]
    exact ⟨2 / 1000, rfl, by simp [shear_options]⟩
  · rw [selectBucket_eq_spec M hwf (by simpa using hn)]
    exact ⟨specBucket M, rfl, specBucket_mem M⟩

lemma selectBucket_mem {M : EVal} {c : ℚ}
    (h : selectBucket M = Except.ok c) : c ∈ shear_options := by
  simp only [selectBucket] at h
  rcases hh : npargmin
      ((shear_options.map (fun _shear =>
        shear_options.map (fun b => EVal.eabs (EVal.rsub b M)))).flatten)
    with e | i
  · rw [hh] at h
    simp only [Bind.bind, Except.bind] at h
    exact Except.noConfusion h
  · rw [hh] at h
    simp only [Bind.bind, Except.bind] at h
    rcases hg : shear_options.get? i with _ | c2
    · rw [hg] at h
      exact Except.noConfusion h
    · rw [hg] at h
      injection h with h
      rw [← h]
      exact List.get?_mem hg

/-- Inversion of a successful `wind_shear` call into its stages. -/
lemma wind_shear_ok_inv {ut ub vt vb : Arr Fl} {dz : Fl} {out : Arr Fl}
    (h : wind_shear ut ub vt vb dz = Except.ok out) :
    ∃ dsA M c0 shp,
      wind_shear_mag ut ub vt vb dz = Except.ok dsA ∧
      npmax dsA.elems = Except.ok M ∧
      selectBucket M = Except.ok c0 ∧
      dsA.shapeAttr = Except.ok shp ∧
      out = whereFill shp
        (if dsA.elems.any EVal.isNan then (2 / 1000 : ℚ) else c0) := by
  unfold wind_shear at h
  rcases h1 : wind_shear_mag ut ub vt vb dz with e | dsA <;> rw [h1] at h <;>
    simp only [Bind.bind, Except.bind] at h
  · exact Except.noConfusion h
  rcases h2 : npmax dsA.elems with e | M <;> rw [h2] at h <;>
    simp only [Bind.bind, Except.bind] at h
  · exact Except.noConfusion h
  rcases h3 : selectBucket M with e | c0 <;> rw [h3] at h <;>
    simp only [Bind.bind, Except.bind] at h
  · exact Except.noConfusion h
  rcases h4 : dsA.shapeAttr with e | shp <;> rw [h4] at h <;>
    simp only [Bind.bind, Except.bind] at h
  · exact Except.noConfusion h
  rcases h5 : npminF (whereFill shp
      (if dsA.elems.any EVal.isNan then (2 / 1000 : ℚ) else c0)).elems
    with e | v <;> rw [h5] at h <;>
    simp only [Bind.bind, Except.bind] at h
  · exact Except.noConfusion h
  refine ⟨dsA, M, c0, shp, rfl, h2, h3, h4, ?_⟩
  injection h with h
  exact h.symm

/-- Forward run of `wind_shear` from successful stages. -/
lemma wind_shear_run {ut ub vt vb : Arr Fl} {dz : Fl} {dsA : Arr EVal}
    {M : EVal} {c0 : ℚ} {shp : Shape}
    (h1 : wind_shear_mag ut ub vt vb dz = Except.ok dsA)
    (h2 : npmax dsA.elems = Except.ok M)
    (hc : selectBucket M = Except.ok c0)
    (h3 : dsA.shapeAttr = Except.ok shp) :
    wind_shear ut ub vt vb dz = Except.ok (whereFill shp
      (if dsA.elems.any EVal.isNan then (2 / 1000 : ℚ) else c0)) := by
  have hsz : shapeSize shp ≠ 0 := by
    cases dsA with
    | pys x => exact Except.noConfusion h3
    | nps x =>
      injection h3 with h3
      rw [← h3]
      simp [shapeSize]
    | vec xs =>
      injection h3 with h3
      rw [← h3]
      have := elems_ne_nil_of_npmax h2
      simp only [Arr.elems] at this
      simp [shapeSize]
      intro hx
      exact this hx
  obtain ⟨v, hv⟩ := npminF_replicate (shapeSize shp) hsz
    (Fl.fin (if dsA.elems.any EVal.isNan then (2 / 1000 : ℚ) else c0))
  unfold wind_shear
  rw [h1]
  simp only [Bind.bind, Except.bind]
  rw [h2]
  simp only [Bind.bind, Except.bind]
  rw [hc]
  simp only [Bind.bind, Except.bind]
  rw [h3]
  simp only [Bind.bind, Except.bind]
  rw [whereFill_elems, hv]

/-- Inversion of a successful `wind_shear_normal` call into its stages. -/
lemma wind_shear_normal_ok_inv {ut ub vt vb ca sa : Arr Fl} {dz : Fl}
    {out : Arr Fl}
    (h : wind_shear_normal ut ub vt vb ca sa dz = Except.ok out) :
    ∃ dsn dsA M c0 shp,
      wind_shear_normal_dsn ut ub vt vb ca sa dz = Except.ok dsn ∧
      wind_shear_mag ut ub vt vb dz = Except.ok dsA ∧
      npmax dsA.elems = Except.ok M ∧
      selectBucket M = Except.ok c0 ∧
      dsn.shapeAttr = Except.ok shp ∧
      shapeSize shp ≠ 0 ∧
      out = whereFill shp
        (-(if dsn.elems.any Fl.isNan then (2 / 1000 : ℚ) else c0)) := by
  unfold wind_shear_normal at h
  rcases h0 : wind_shear_normal_dsn ut ub vt vb ca sa dz with e | dsn <;>
    rw [h0] at h <;> simp only [Bind.bind, Except.bind] at h
  · exact Except.noConfusion h
  rcases h1 : wind_shear_mag ut ub vt vb dz with e | dsA <;> rw [h1] at h <;>
    simp only [Bind.bind, Except.bind] at h
  · exact Except.noConfusion h
  rcases h2 : npmax dsA.elems with e | M <;> rw [h2] at h <;>
    simp only [Bind.bind, Except.bind] at h
  · exact Except.noConfusion h
  rcases h3 : selectBucket M with e | c0 <;> rw [h3] at h <;>
    simp only [Bind.bind, Except.bind] at h
  · exact Except.noConfusion h
  rcases h4 : dsn.shapeAttr with e | shp <;> rw [h4] at h <;>
    simp only [Bind.bind, Except.bind] at h
  · exact Except.noConfusion h
  rcases h5 : npminF (whereFill shp
      (-(if dsn.elems.any Fl.isNan then (2 / 1000 : ℚ) else c0))).elems
    with e | v <;> rw [h5] at h <;>
    simp only [Bind.bind, Except.bind] at h
  · exact Except.noConfusion h
  have hsz : shapeSize shp ≠ 0 := by
    intro hz
    rw [whereFill_elems, hz] at h5
    exact Except.noConfusion h5
  refine ⟨dsn, dsA, M, c0, shp, rfl, rfl, h2, h3, h4, hsz, ?_⟩
  injection h with h
  exact h.symm

/-- Forward run of `wind_shear_normal` from successful stages. -/
lemma wind_shear_normal_run {ut ub vt vb ca sa : Arr Fl} {dz : Fl}
    {dsn : Arr Fl} {dsA : Arr EVal} {M : EVal} {c0 : ℚ} {shp : Shape}
    (h0 : wind_shear_normal_dsn ut ub vt vb ca sa dz = Except.ok dsn)
    (h1 : wind_shear_mag ut ub vt vb dz = Except.ok dsA)
    (h2 : npmax dsA.elems = Except.ok M)
    (hc : selectBucket M = Except.ok c0)
    (h4 : dsn.shapeAttr = Except.ok shp)
    (hsz : shapeSize shp ≠ 0) :
    wind_shear_normal ut ub vt vb ca sa dz = Except.ok (whereFill shp
      (-(if dsn.elems.any Fl.isNan then (2 / 1000 : ℚ) else c0))) := by
  obtain ⟨v, hv⟩ := npminF_replicate (shapeSize shp) hsz
    (Fl.fin (-(if dsn.elems.any Fl.isNan then (2 / 1000 : ℚ) else c0)))
  unfold wind_shear_normal
  rw [h0]
  simp only [Bind.bind, Except.bind]
  rw [h1]
  simp only [Bind.bind, Except.bind]
  rw [h2]
  simp only [Bind.bind, Except.bind]
  rw [hc]
  simp only [Bind.bind, Except.bind]
  rw [h4]
  simp only [Bind.bind, Except.bind]
  rw [whereFill_elems, hv]

/-! ### Structural lemmas about array operands and broadcasting -/

lemma Arr.elems_amap {α β : Type} (f : α → β) (x : Arr α) :
    (x.amap f).elems = x.elems.map f := by
  cases x <;> rfl


lemma Arr.bshape_amap {α β : Type} (f : α → β) (x : Arr α) :
    (x.amap f).bshape = x.bshape := by
  cases x <;> simp [Arr.amap, Arr.bshape]

lemma Arr.isPys_amap {α β : Type} (f : α → β) (x : Arr α) :
    (x.amap f).isPys = x.isPys := by
  cases x <;> rfl

lemma Arr.shapeAttr_of_not_pys {α : Type} {x : Arr α} (h : x.isPys = false) :
    x.shapeAttr = Except.ok x.bshape := by
  cases x with
  | pys a => exact absurd h (by simp [Arr.isPys])
  | nps a => rfl
  | vec xs => rfl

lemma Arr.elems_length_s0 {α : Type} {x : Arr α} (h : x.bshape = Shape.s0) :
    x.elems.length = 1 := by
  cases x <;> simp_all [Arr.bshape, Arr.elems]

lemma Arr.elems_length_s1 {α : Type} {x : Arr α} {n : ℕ}
    (h : x.bshape = Shape.s1 n) : x.elems.length = n := by
  cases x <;> simp_all [Arr.bshape, Arr.elems]

lemma joinShape_s0_left (t : Shape) : joinShape Shape.s0 t = Except.ok t := by
  cases t <;> rfl

lemma joinShape_s0_right (t : Shape) : joinShape t Shape.s0 = Except.ok t := by
  cases t <;> rfl

lemma joinShape_comm (s t : Shape) : joinShape s t = joinShape t s := by
  cases s with
  | s0 => rw [joinShape_s0_left, joinShape_s0_right]
  | s1 n =>
    cases t with
    | s0 => rw [joinShape_s0_left, joinShape_s0_right]
    | s1 m =>
      unfold joinShape
      by_cases h : n = m
      · simp [h]
      · simp only [if_neg h, if_neg (Ne.symm h)]
        by_cases h1 : n = 1
        · by_cases h2 : m = 1
          · exact absurd (h1.trans h2.symm) h
          · simp [h1, h2]
        · simp [h1]

lemma joinShape_self (s : Shape) : joinShape s s = Except.ok s := by
  cases s <;> simp [joinShape]

lemma zipWith_mem_src {f : Fl → Fl → Fl} :
    ∀ (as_ bs : List Fl), ∀ c ∈ List.zipWith f as_ bs,
      ∃ a ∈ as_, ∃ b ∈ bs, c = f a b := by
  intro as_
  induction as_ with
  | nil => intro bs c hc; simp at hc
  | cons a as2 ih =>
    intro bs c hc
    cases bs with
    | nil => simp at hc
    | cons b bs2 =>
      rcases List.mem_cons.1 hc with h | h
      · exact ⟨a, by simp, b, by simp, h⟩
      · obtain ⟨a2, ha, b2, hb, he⟩ := ih bs2 c h
        exact ⟨a2, by simp [ha], b2, by simp [hb], he⟩

lemma zipWith_cover_left {f : Fl → Fl → Fl} :
    ∀ (as_ bs : List Fl), as_.length = bs.length →
      ∀ a ∈ as_, ∃ b ∈ bs, f a b ∈ List.zipWith f as_ bs := by
  intro as_
  induction as_ with
  | nil => intro bs _ a ha; simp at ha
  | cons x as2 ih =>
    intro bs hl a ha
    cases bs with
    | nil => simp at hl
    | cons y bs2 =>
      rcases List.mem_cons.1 ha with h | h
      · exact ⟨y, by simp, by simp [h]⟩
      · obtain ⟨b, hb, hm⟩ := ih bs2 (by simpa using hl) a h
        exact ⟨b, by simp [hb], by simp [hm]⟩

lemma zipWith_cover_right {f : Fl → Fl → Fl} :
    ∀ (as_ bs : List Fl), as_.length = bs.length →
      ∀ b ∈ bs, ∃ a ∈ as_, f a b ∈ List.zipWith f as_ bs := by
  intro as_
  induction as_ with
  | nil => intro bs hl b hb; rw [List.length_nil] at hl
           cases bs with
           | nil => simp at hb
           | cons y bs2 => simp at hl
  | cons x as2 ih =>
    intro bs hl b hb
    cases bs with
    | nil => simp at hb
    | cons y bs2 =>
      rcases List.mem_cons.1 hb with h | h
      · exact ⟨x, by simp, by simp [h]⟩
      · obtain ⟨a, ha, hm⟩ := ih bs2 (by simpa using hl) b h
        exact ⟨a, by simp [ha], by simp [hm]⟩

/-- Combined structural description of a successful elementwise operation:
its shape is the broadcast join, plain-float-ness is preserved exactly when
both operands are plain floats, every result element is `f a b` for operand
elements `a, b`, and (when the result is nonempty) every operand element is
used in some result element. -/
lemma ewise_cases {f : Fl → Fl → Fl} {x y z : Arr Fl}
    (h : ewise f x y = Except.ok z) :
    joinShape x.bshape y.bshape = Except.ok z.bshape ∧
    z.isPys = (x.isPys && y.isPys) ∧
    (∀ c ∈ z.elems, ∃ a ∈ x.elems, ∃ b ∈ y.elems, c = f a b) ∧
    (z.elems ≠ [] →
      (∀ a ∈ x.elems, ∃ b ∈ y.elems, f a b ∈ z.elems) ∧
      (∀ b ∈ y.elems, ∃ a ∈ x.elems, f a b ∈ z.elems)) := by
  cases x with
  | pys a =>
    cases y with
    | pys b =>
      injection h with h
      subst h
      refine ⟨rfl, rfl, ?_, ?_⟩
      · intro c hc
        simp [Arr.elems] at hc
        exact ⟨a, by simp [Arr.elems], b, by simp [Arr.elems], hc⟩
      · intro _
        constructor
        · intro a2 ha
          simp [Arr.elems] at ha
          exact ⟨b, by simp [Arr.elems], by simp [Arr.elems, ha]⟩
        · intro b2 hb
          simp [Arr.elems] at hb
          exact ⟨a, by simp [Arr.elems], by simp [Arr.elems, hb]⟩
    | nps b =>
      injection h with h
      subst h
      refine ⟨rfl, rfl, ?_, ?_⟩
      · intro c hc
        simp [Arr.elems] at hc
        exact ⟨a, by simp [Arr.elems], b, by simp [Arr.elems], hc⟩
      · intro _
        constructor
        · intro a2 ha
          simp [Arr.elems] at ha
          exact ⟨b, by simp [Arr.elems], by simp [Arr.elems, ha]⟩
        · intro b2 hb
          simp [Arr.elems] at hb
          exact ⟨a, by simp [Arr.elems], by simp [Arr.elems, hb]⟩
    | vec bs =>
      injection h with h
      subst h
      refine ⟨by simp [Arr.bshape, joinShape], rfl, ?_, ?_⟩
      · intro c hc
        simp [Arr.elems] at hc
        obtain ⟨b, hb, he⟩ := hc
        exact ⟨a, by simp [Arr.elems], b, by simpa [Arr.elems] using hb, he.symm⟩
      · intro hne
        constructor
        · intro a2 ha
          simp [Arr.elems] at ha
          have hbs : bs ≠ [] := by
            intro hb
            simp [Arr.elems, hb] at hne
          obtain ⟨b, hb⟩ := List.exists_mem_of_ne_nil bs hbs
          exact ⟨b, hb, by simp [Arr.elems, ha]; exact ⟨b, hb, rfl⟩⟩
        · intro b hb
          simp [Arr.elems] at hb
          exact ⟨a, by simp [Arr.elems], by simp [Arr.elems]; exact ⟨b, hb, rfl⟩⟩
  | nps a =>
    cases y with
    | pys b =>
      injection h with h
      subst h
      refine ⟨rfl, rfl, ?_, ?_⟩
      · intro c hc
        simp [Arr.elems] at hc
        exact ⟨a, by simp [Arr.elems], b, by simp [Arr.elems], hc⟩
      · intro _
        constructor
        · intro a2 ha
          simp [Arr.elems] at ha
          exact ⟨b, by simp [Arr.elems], by simp [Arr.elems, ha]⟩
        · intro b2 hb
          simp [Arr.elems] at hb
          exact ⟨a, by simp [Arr.elems], by simp [Arr.elems, hb]⟩
    | nps b =>
      injection h with h
      subst h
      refine ⟨rfl, rfl, ?_, ?_⟩
      · intro c hc
        simp [Arr.elems] at hc
        exact ⟨a, by simp [Arr.elems], b, by simp [Arr.elems], hc⟩
      · intro _
        constructor
        · intro a2 ha
          simp [Arr.elems] at ha
          exact ⟨b, by simp [Arr.elems], by simp [Arr.elems, ha]⟩
        · intro b2 hb
          simp [Arr.elems] at hb
          exact ⟨a, by simp [Arr.elems], by simp [Arr.elems, hb]⟩
    | vec bs =>
      injection h with h
      subst h
      refine ⟨by simp [Arr.bshape, joinShape], rfl, ?_, ?_⟩
      · intro c hc
        simp [Arr.elems] at hc
        obtain ⟨b, hb, he⟩ := hc
        exact ⟨a, by simp [Arr.elems], b, by simpa [Arr.elems] using hb, he.symm⟩
      · intro hne
        constructor
        · intro a2 ha
          simp [Arr.elems] at ha
          have hbs : bs ≠ [] := by
            intro hb
            simp [Arr.elems, hb] at hne
          obtain ⟨b, hb⟩ := List.exists_mem_of_ne_nil bs hbs
          exact ⟨b, hb, by simp [Arr.elems, ha]; exact ⟨b, hb, rfl⟩⟩
        · intro b hb
          simp [Arr.elems] at hb
          exact ⟨a, by simp [Arr.elems], by simp [Arr.elems]; exact ⟨b, hb, rfl⟩⟩
  | vec as_ =>
    cases y with
    | pys b =>
      injection h with h
      subst h
      refine ⟨by simp [Arr.bshape, joinShape_s0_right], rfl, ?_, ?_⟩
      · intro c hc
        simp [Arr.elems] at hc
        obtain ⟨a, ha, he⟩ := hc
        exact ⟨a, by simpa [Arr.elems] using ha, b, by simp [Arr.elems], he.symm⟩
      · intro hne
        constructor
        · intro a ha
          simp [Arr.elems] at ha
          exact ⟨b, by simp [Arr.elems], by simp [Arr.elems]; exact ⟨a, ha, rfl⟩⟩
        · intro b2 hb
          simp [Arr.elems] at hb
          have has : as_ ≠ [] := by
            intro ha
            simp [Arr.elems, ha] at hne
          obtain ⟨a, ha⟩ := List.exists_mem_of_ne_nil as_ has
          exact ⟨a, ha, by simp [Arr.elems, hb]; exact ⟨a, ha, rfl⟩⟩
    | nps b =>
      injection h with h
      subst h
      refine ⟨by simp [Arr.bshape, joinShape_s0_right], rfl, ?_, ?_⟩
      · intro c hc
        simp [Arr.elems] at hc
        obtain ⟨a, ha, he⟩ := hc
        exact ⟨a, by simpa [Arr.elems] using ha, b, by simp [Arr.elems], he.symm⟩
      · intro hne
        constructor
        · intro a ha
          simp [Arr.elems] at ha
          exact ⟨b, by simp [Arr.elems], by simp [Arr.elems]; exact ⟨a, ha, rfl⟩⟩
        · intro b2 hb
          simp [Arr.elems] at hb
          have has : as_ ≠ [] := by
            intro ha
            simp [Arr.elems, ha] at hne
          obtain ⟨a, ha⟩ := List.exists_mem_of_ne_nil as_ has
          exact ⟨a, ha, by simp [Arr.elems, hb]; exact ⟨a, ha, rfl⟩⟩
    | vec bs =>
      simp only [ewise] at h
      by_cases hl : as_.length = bs.length
      · rw [if_pos hl] at h
        injection h with h
        subst h
        refine ⟨by simp [Arr.bshape, joinShape, hl], rfl, ?_, ?_⟩
        · intro c hc
          simp only [Arr.elems] at hc ⊢
          exact zipWith_mem_src as_ bs c hc
        · intro _
          simp only [Arr.elems]
          exact ⟨zipWith_cover_left as_ bs hl, zipWith_cover_right as_ bs hl⟩
      · rw [if_neg hl] at h
        rcases as_ with _ | ⟨a, as2⟩
        · rcases bs with _ | ⟨b, bs2⟩
          · exact absurd rfl hl
          · rcases bs2 with _ | ⟨b2, bs3⟩
            · injection h with h
              subst h
              refine ⟨by simp [Arr.bshape, joinShape], rfl, ?_, ?_⟩
              · intro c hc
                simp [Arr.elems] at hc
              · intro hne
                exact absurd rfl hne
            · exact Except.noConfusion h
        · rcases as2 with _ | ⟨a2, as3⟩
          · rcases bs with _ | ⟨b, bs2⟩
            · injection h with h
              subst h
              refine ⟨by simp [Arr.bshape, joinShape], rfl, ?_, ?_⟩
              · intro c hc
                simp [Arr.elems] at hc
              · intro hne
                exact absurd rfl hne
            · rcases bs2 with _ | ⟨b2, bs3⟩
              · exact absurd rfl hl
              · injection h with h
                subst h
                have hm : (b :: b2 :: bs3).length ≠ 1 := by simp
                refine ⟨by simp [Arr.bshape, joinShape, hm], rfl, ?_, ?_⟩
                · intro c hc
                  simp only [Arr.elems, List.mem_map] at hc
                  obtain ⟨b3, hb, he⟩ := hc
                  exact ⟨a, by simp [Arr.elems], b3, by simpa [Arr.elems] using hb,
                    he.symm⟩
                · intro hne
                  constructor
                  · intro a2 ha
                    simp [Arr.elems] at ha
                    refine ⟨b, by simp [Arr.elems], ?_⟩
                    simp only [Arr.elems, List.mem_map, ha]
                    exact ⟨b, by simp, rfl⟩
                  · intro b3 hb
                    simp only [Arr.elems] at hb
                    refine ⟨a, by simp [Arr.elems], ?_⟩
                    simp only [Arr.elems, List.mem_map]
                    exact ⟨b3, hb, rfl⟩
          · rcases bs with _ | ⟨b, bs2⟩
            · exact Except.noConfusion h
            · rcases bs2 with _ | ⟨b2, bs3⟩
              · injection h with h
                subst h
                have hm : (a :: a2 :: as3).length ≠ 1 := by simp
                refine ⟨by simp [Arr.bshape, joinShape, hm], rfl, ?_, ?_⟩
                · intro c hc
                  simp only [Arr.elems, List.mem_map] at hc
                  obtain ⟨a3, ha, he⟩ := hc
                  exact ⟨a3, by simpa [Arr.elems] using ha, b,
                    by simp [Arr.elems], he.symm⟩
                · intro hne
                  constructor
                  · intro a3 ha
                    simp only [Arr.elems] at ha
                    refine ⟨b, by simp [Arr.elems], ?_⟩
                    simp only [Arr.elems, List.mem_map]
                    exact ⟨a3, ha, rfl⟩
                  · intro b3 hb
                    simp [Arr.elems] at hb
                    refine ⟨a, by simp [Arr.elems], ?_⟩
                    simp only [Arr.elems, List.mem_map, hb]
                    exact ⟨a, by simp, rfl⟩
              · exact Except.noConfusion h

lemma ewise_bshape {f : Fl → Fl → Fl} {x y z : Arr Fl}
    (h : ewise f x y = Except.ok z) :
    joinShape x.bshape y.bshape = Except.ok z.bshape := (ewise_cases h).1

lemma ewise_isPys {f : Fl → Fl → Fl} {x y z : Arr Fl}
    (h : ewise f x y = Except.ok z) :
    z.isPys = (x.isPys && y.isPys) := (ewise_cases h).2.1

lemma ewise_src {f : Fl → Fl → Fl} {x y z : Arr Fl}
    (h : ewise f x y = Except.ok z) :
    ∀ c ∈ z.elems, ∃ a ∈ x.elems, ∃ b ∈ y.elems, c = f a b :=
  (ewise_cases h).2.2.1

lemma ewise_cover_left {f : Fl → Fl → Fl} {x y z : Arr Fl}
    (h : ewise f x y = Except.ok z) (hne : z.elems ≠ []) :
    ∀ a ∈ x.elems, ∃ b ∈ y.elems, f a b ∈ z.elems :=
  ((ewise_cases h).2.2.2 hne).1

lemma ewise_cover_right {f : Fl → Fl → Fl} {x y z : Arr Fl}
    (h : ewise f x y = Except.ok z) (hne : z.elems ≠ []) :
    ∀ b ∈ y.elems, ∃ a ∈ x.elems, f a b ∈ z.elems :=
  ((ewise_cases h).2.2.2 hne).2

/-- An elementwise operation whose operand shapes broadcast succeeds. -/
lemma ewise_ok_of_join {f : Fl → Fl → Fl} {x y : Arr Fl} {s : Shape}
    (h : joinShape x.bshape y.bshape = Except.ok s) :
    ∃ z, ewise f x y = Except.ok z := by
  cases x <;> cases y <;> try exact ⟨_, rfl⟩
  case vec.vec as_ bs =>
    by_cases hl : as_.length = bs.length
    · exact ⟨Arr.vec (List.zipWith f as_ bs), by simp [ewise, hl]⟩
    · rcases as_ with _ | ⟨a, as2⟩
      · rcases bs with _ | ⟨b, bs2⟩
        · exact absurd rfl hl
        · rcases bs2 with _ | ⟨b2, bs3⟩
          · exact ⟨Arr.vec [], by simp [ewise, hl]⟩
          · exfalso
            simp [Arr.bshape, joinShape, hl] at h
      · rcases as2 with _ | ⟨a2, as3⟩
        · rcases bs with _ | ⟨b, bs2⟩
          · exact ⟨Arr.vec [], by simp [ewise, hl]⟩
          · rcases bs2 with _ | ⟨b2, bs3⟩
            · exact absurd rfl hl
            · exact ⟨Arr.vec (List.map (fun b3 => f a b3) (b :: b2 :: bs3)),
                by simp [ewise, hl]⟩
        · rcases bs with _ | ⟨b, bs2⟩
          · exfalso
            simp [Arr.bshape, joinShape, hl] at h
          · rcases bs2 with _ | ⟨b2, bs3⟩
            · exact ⟨Arr.vec (List.map (fun a3 => f a3 b) (a :: a2 :: as3)),
                by simp [ewise, hl]⟩
            · exfalso
              have h1 : (a :: a2 :: as3).length ≠ 1 := by simp
              have h2 : (b :: b2 :: bs3).length ≠ 1 := by simp
              have h3 : ¬ as3.length = bs3.length := by simpa using hl
              simp [Arr.bshape, joinShape, hl, h1, h2, h3] at h

/-! ### Special-value facts about the idealised doubles -/

lemma Fl.mul_nan_left (y : Fl) : Fl.mul Fl.nan y = Fl.nan := by
  cases y <;> rfl

lemma Fl.mul_nan_right (x : Fl) : Fl.mul x Fl.nan = Fl.nan := by
  cases x <;> rfl

lemma Fl.sub_nan_left (y : Fl) : Fl.sub Fl.nan y = Fl.nan := by
  cases y <;> rfl

lemma Fl.sub_nan_right (x : Fl) : Fl.sub x Fl.nan = Fl.nan := by
  cases x <;> rfl

lemma Fl.add_nan_left (y : Fl) : Fl.add Fl.nan y = Fl.nan := by
  cases y <;> rfl

lemma Fl.add_nan_right (x : Fl) : Fl.add x Fl.nan = Fl.nan := by
  cases x <;> rfl

/-- `x ** 2` is `nan` exactly on `nan`. -/
lemma Fl.sq_nan_iff (x : Fl) : Fl.sq x = Fl.nan ↔ x = Fl.nan := by
  cases x <;> simp [Fl.sq, Fl.mul]

/-- `x ** 2` is never `-inf`. -/
lemma Fl.sq_ne_ninf (x : Fl) : Fl.sq x ≠ Fl.ninf := by
  cases x <;> simp [Fl.sq, Fl.mul]

/-- A finite square is nonnegative. -/
lemma Fl.sq_fin_nonneg {x : Fl} {q : ℚ} (h : Fl.sq x = Fl.fin q) : 0 ≤ q := by
  cases x <;> simp [Fl.sq, Fl.mul] at h
  case fin p =>
    rw [← h]
    exact mul_self_nonneg p

/-- The square of an infinity is `+inf`. -/
lemma Fl.sq_inf {x : Fl} (h : x = Fl.pinf ∨ x = Fl.ninf) :
    Fl.sq x = Fl.pinf := by
  rcases h with h | h <;> rw [h] <;> rfl

/-- If a sum is `nan` then an operand is `nan` or the operands are opposite
infinities. -/
lemma Fl.add_nan_cases {a b : Fl} (h : Fl.add a b = Fl.nan) :
    a = Fl.nan ∨ b = Fl.nan ∨ (a = Fl.pinf ∧ b = Fl.ninf) ∨
      (a = Fl.ninf ∧ b = Fl.pinf) := by
  cases a <;> cases b <;> simp_all [Fl.add]

/-- If a difference is `nan` then an operand is `nan` or the operands are
equal infinities. -/
lemma Fl.sub_nan_cases {a b : Fl} (h : Fl.sub a b = Fl.nan) :
    a = Fl.nan ∨ b = Fl.nan ∨ (a = Fl.pinf ∧ b = Fl.pinf) ∨
      (a = Fl.ninf ∧ b = Fl.ninf) := by
  cases a <;> cases b <;> simp_all [Fl.sub, Fl.add, Fl.neg]

/-- `+inf` plus anything that is neither `nan` nor `-inf` is `+inf`. -/
lemma Fl.add_pinf_left {b : Fl} (h1 : b ≠ Fl.nan) (h2 : b ≠ Fl.ninf) :
    Fl.add Fl.pinf b = Fl.pinf := by
  cases b <;> simp_all [Fl.add]

lemma Fl.add_pinf_right {a : Fl} (h1 : a ≠ Fl.nan) (h2 : a ≠ Fl.ninf) :
    Fl.add a Fl.pinf = Fl.pinf := by
  cases a <;> simp_all [Fl.add]

/-- A product with a finite value is `nan` only if the other operand is
`nan` or infinite. -/
lemma Fl.mul_fin_nan {v : Fl} {c : ℚ} (h : Fl.mul v (Fl.fin c) = Fl.nan) :
    v = Fl.nan ∨ v = Fl.pinf ∨ v = Fl.ninf := by
  cases v <;> simp_all [Fl.mul]

lemma Fl.mul_fin_nan2 {v : Fl} {c : ℚ} (h : Fl.mul (Fl.fin c) v = Fl.nan) :
    v = Fl.nan ∨ v = Fl.pinf ∨ v = Fl.ninf := by
  cases v <;> simp_all [Fl.mul]

/-- A product with a finite value is infinite only if the other operand is
infinite. -/
lemma Fl.mul_fin_inf {v : Fl} {c : ℚ}
    (h : Fl.mul v (Fl.fin c) = Fl.pinf ∨ Fl.mul v (Fl.fin c) = Fl.ninf) :
    v = Fl.pinf ∨ v = Fl.ninf := by
  rcases h with h | h <;> cases v <;> simp_all [Fl.mul]

lemma Fl.mul_fin_inf2 {v : Fl} {c : ℚ}
    (h : Fl.mul (Fl.fin c) v = Fl.pinf ∨ Fl.mul (Fl.fin c) v = Fl.ninf) :
    v = Fl.pinf ∨ v = Fl.ninf := by
  rcases h with h | h <;> cases v <;> simp_all [Fl.mul]

lemma powHalf_nan_cases {x : Fl} (h : powHalf x = EVal.nan) :
    x = Fl.nan ∨ x = Fl.ninf ∨ ∃ q, x = Fl.fin q ∧ q < 0 := by
  cases x with
  | fin q =>
    by_cases hq : q < 0
    · exact Or.inr (Or.inr ⟨q, rfl, hq⟩)
    · simp [powHalf, hq] at h
  | pinf => simp [powHalf] at h
  | ninf => exact Or.inr (Or.inl rfl)
  | nan => exact Or.inl rfl

lemma powHalf_pinf_iff (x : Fl) : powHalf x = EVal.pinf ↔ x = Fl.pinf := by
  cases x with
  | fin q =>
    by_cases hq : q < 0 <;> simp [powHalf, hq]
  | pinf => simp [powHalf]
  | ninf => simp [powHalf]
  | nan => simp [powHalf]

lemma powHalf_isNan (x : Fl) :
    (powHalf x).isNan = true ↔
      x = Fl.nan ∨ x = Fl.ninf ∨ ∃ q, x = Fl.fin q ∧ q < 0 := by
  constructor
  · intro h
    apply powHalf_nan_cases
    cases hp : powHalf x <;> simp_all [EVal.isNan]
  · intro h
    rcases h with h | h | ⟨q, h, hq⟩ <;> subst h <;>
      simp [powHalf, EVal.isNan, *]

lemma anyNanE_iff (l : List EVal) :
    l.any EVal.isNan = true ↔ EVal.nan ∈ l := by
  rw [List.any_eq_true]
  constructor
  · rintro ⟨x, hx, hn⟩
    cases x <;> simp_all [EVal.isNan]
  · intro h
    exact ⟨EVal.nan, h, rfl⟩

lemma anyNanF_iff (l : List Fl) :
    l.any Fl.isNan = true ↔ Fl.nan ∈ l := by
  rw [List.any_eq_true]
  constructor
  · rintro ⟨x, hx, hn⟩
    cases x <;> simp_all [Fl.isNan]
  · intro h
    exact ⟨Fl.nan, h, rfl⟩

/-- Inversion of the magnitude pipeline into its stages. -/
lemma wind_shear_mag_inv {ut ub vt vb : Arr Fl} {dz : Fl} {dsA : Arr EVal}
    (h : wind_shear_mag ut ub vt vb dz = Except.ok dsA) :
    ∃ d1 du d2 dv s,
      ewise Fl.sub ut ub = Except.ok d1 ∧
      ewise Fl.div d1 (Arr.pys dz) = Except.ok du ∧
      ewise Fl.sub vt vb = Except.ok d2 ∧
      ewise Fl.div d2 (Arr.pys dz) = Except.ok dv ∧
      ewise Fl.add (du.amap Fl.sq) (dv.amap Fl.sq) = Except.ok s ∧
      dsA = s.amap powHalf := by
  unfold wind_shear_mag at h
  rcases h1 : ewise Fl.sub ut ub with e | d1 <;> rw [h1] at h <;>
    simp only [Bind.bind, Except.bind] at h
  · exact Except.noConfusion h
  rcases h2 : ewise Fl.div d1 (Arr.pys dz) with e | du <;> rw [h2] at h <;>
    simp only [Bind.bind, Except.bind] at h
  · exact Except.noConfusion h
  rcases h3 : ewise Fl.sub vt vb with e | d2 <;> rw [h3] at h <;>
    simp only [Bind.bind, Except.bind] at h
  · exact Except.noConfusion h
  rcases h4 : ewise Fl.div d2 (Arr.pys dz) with e | dv <;> rw [h4] at h <;>
    simp only [Bind.bind, Except.bind] at h
  · exact Except.noConfusion h
  rcases h5 : ewise Fl.add (du.amap Fl.sq) (dv.amap Fl.sq) with e | s <;>
    rw [h5] at h <;> simp only [Bind.bind, Except.bind] at h
  · exact Except.noConfusion h
  refine ⟨d1, du, d2, dv, s, rfl, h2, rfl, h4, h5, ?_⟩
  injection h with h
  exact h.symm

/-- A `nan` in the magnitude array stems from a `nan` gradient element. -/
lemma mag_nan_src {du dv s : Arr Fl} {dsA : Arr EVal}
    (h5 : ewise Fl.add (du.amap Fl.sq) (dv.amap Fl.sq) = Except.ok s)
    (hds : dsA = s.amap powHalf) (hnan : EVal.nan ∈ dsA.elems) :
    Fl.nan ∈ du.elems ∨ Fl.nan ∈ dv.elems := by
  rw [hds, Arr.elems_amap] at hnan
  obtain ⟨e, he, hpe⟩ := List.mem_map.1 hnan
  obtain ⟨a, ha, b, hb, hab⟩ := ewise_src h5 e he
  rw [Arr.elems_amap] at ha hb
  obtain ⟨a0, ha0, ha0e⟩ := List.mem_map.1 ha
  obtain ⟨b0, hb0, hb0e⟩ := List.mem_map.1 hb
  rcases powHalf_nan_cases hpe with hc | hc | ⟨q, hc, hq⟩
  · rw [hab] at hc
    rcases Fl.add_nan_cases hc with h | h | ⟨_, h⟩ | ⟨h, _⟩
    · rw [← ha0e] at h
      exact Or.inl (by rw [← (Fl.sq_nan_iff a0).1 h]; exact ha0)
    · rw [← hb0e] at h
      exact Or.inr (by rw [← (Fl.sq_nan_iff b0).1 h]; exact hb0)
    · rw [← hb0e] at h
      exact absurd h (Fl.sq_ne_ninf b0)
    · rw [← ha0e] at h
      exact absurd h (Fl.sq_ne_ninf a0)
  · exfalso
    rw [hab] at hc
    have ha2 : a ≠ Fl.ninf := by rw [← ha0e]; exact Fl.sq_ne_ninf a0
    have hb2 : b ≠ Fl.ninf := by rw [← hb0e]; exact Fl.sq_ne_ninf b0
    cases a <;> cases b <;> simp_all [Fl.add]
  · exfalso
    rw [hab] at hc
    cases a with
    | fin qa =>
      cases b with
      | fin qb =>
        have h1 : 0 ≤ qa := Fl.sq_fin_nonneg ha0e
        have h2 : 0 ≤ qb := Fl.sq_fin_nonneg hb0e
        simp [Fl.add] at hc
        rw [← hc] at hq
        exact absurd hq (not_lt.2 (add_nonneg h1 h2))
      | pinf => simp [Fl.add] at hc
      | ninf => exact Fl.sq_ne_ninf b0 hb0e
      | nan => simp [Fl.add] at hc
    | pinf => cases b <;> simp [Fl.add] at hc
    | ninf => exact Fl.sq_ne_ninf a0 ha0e
    | nan => cases b <;> simp [Fl.add] at hc

/-- A `nan` gradient element produces a `nan` magnitude element. -/
lemma mag_nan_of_du {du dv s : Arr Fl} {dsA : Arr EVal}
    (h5 : ewise Fl.add (du.amap Fl.sq) (dv.amap Fl.sq) = Except.ok s)
    (hds : dsA = s.amap powHalf) (hne : dsA.elems ≠ [])
    (hnan : Fl.nan ∈ du.elems) : EVal.nan ∈ dsA.elems := by
  have hsne : s.elems ≠ [] := by
    intro hs
    rw [hds, Arr.elems_amap, hs] at hne
    exact hne rfl
  have ha : Fl.nan ∈ (du.amap Fl.sq).elems := by
    rw [Arr.elems_amap]
    exact List.mem_map.2 ⟨Fl.nan, hnan, rfl⟩
  obtain ⟨b, _, hm⟩ := ewise_cover_left h5 hsne Fl.nan ha
  rw [Fl.add_nan_left] at hm
  rw [hds, Arr.elems_amap]
  exact List.mem_map.2 ⟨Fl.nan, hm, rfl⟩

lemma mag_nan_of_dv {du dv s : Arr Fl} {dsA : Arr EVal}
    (h5 : ewise Fl.add (du.amap Fl.sq) (dv.amap Fl.sq) = Except.ok s)
    (hds : dsA = s.amap powHalf) (hne : dsA.elems ≠ [])
    (hnan : Fl.nan ∈ dv.elems) : EVal.nan ∈ dsA.elems := by
  have hsne : s.elems ≠ [] := by
    intro hs
    rw [hds, Arr.elems_amap, hs] at hne
    exact hne rfl
  have hb : Fl.nan ∈ (dv.amap Fl.sq).elems := by
    rw [Arr.elems_amap]
    exact List.mem_map.2 ⟨Fl.nan, hnan, rfl⟩
  obtain ⟨a, _, hm⟩ := ewise_cover_right h5 hsne Fl.nan hb
  rw [Fl.add_nan_right] at hm
  rw [hds, Arr.elems_amap]
  exact List.mem_map.2 ⟨Fl.nan, hm, rfl⟩

/-- An infinite `du` element (with no `nan` among the `dv` elements)
produces a `+inf` magnitude element. -/
lemma mag_pinf_of_du_inf {du dv s : Arr Fl} {dsA : Arr EVal}
    (h5 : ewise Fl.add (du.amap Fl.sq) (dv.amap Fl.sq) = Except.ok s)
    (hds : dsA = s.amap powHalf) (hne : dsA.elems ≠ [])
    {a : Fl} (ha : a ∈ du.elems) (hainf : a = Fl.pinf ∨ a = Fl.ninf)
    (hdv : Fl.nan ∉ dv.elems) : EVal.pinf ∈ dsA.elems := by
  have hsne : s.elems ≠ [] := by
    intro hs
    rw [hds, Arr.elems_amap, hs] at hne
    exact hne rfl
  have hsq : Fl.pinf ∈ (du.amap Fl.sq).elems := by
    rw [Arr.elems_amap]
    exact List.mem_map.2 ⟨a, ha, Fl.sq_inf hainf⟩
  obtain ⟨b, hb, hm⟩ := ewise_cover_left h5 hsne Fl.pinf hsq
  rw [Arr.elems_amap] at hb
  obtain ⟨b0, hb0, hb0e⟩ := List.mem_map.1 hb
  have hb1 : b ≠ Fl.nan := by
    rw [← hb0e, Ne, Fl.sq_nan_iff]
    intro hb2
    rw [hb2] at hb0
    exact hdv hb0
  have hb2 : b ≠ Fl.ninf := by
    rw [← hb0e]
    exact Fl.sq_ne_ninf b0
  rw [Fl.add_pinf_left hb1 hb2] at hm
  rw [hds, Arr.elems_amap]
  exact List.mem_map.2 ⟨Fl.pinf, hm, rfl⟩

lemma mag_pinf_of_dv_inf {du dv s : Arr Fl} {dsA : Arr EVal}
    (h5 : ewise Fl.add (du.amap Fl.sq) (dv.amap Fl.sq) = Except.ok s)
    (hds : dsA = s.amap powHalf) (hne : dsA.elems ≠ [])
    {b : Fl} (hb : b ∈ dv.elems) (hbinf : b = Fl.pinf ∨ b = Fl.ninf)
    (hdu : Fl.nan ∉ du.elems) : EVal.pinf ∈ dsA.elems := by
  have hsne : s.elems ≠ [] := by
    intro hs
    rw [hds, Arr.elems_amap, hs] at hne
    exact hne rfl
  have hsq : Fl.pinf ∈ (dv.amap Fl.sq).elems := by
    rw [Arr.elems_amap]
    exact List.mem_map.2 ⟨b, hb, Fl.sq_inf hbinf⟩
  obtain ⟨a, ha, hm⟩ := ewise_cover_right h5 hsne Fl.pinf hsq
  rw [Arr.elems_amap] at ha
  obtain ⟨a0, ha0, ha0e⟩ := List.mem_map.1 ha
  have ha1 : a ≠ Fl.nan := by
    rw [← ha0e, Ne, Fl.sq_nan_iff]
    intro ha2
    rw [ha2] at ha0
    exact hdu ha0
  have ha2 : a ≠ Fl.ninf := by
    rw [← ha0e]
    exact Fl.sq_ne_ninf a0
  rw [Fl.add_pinf_right ha1 ha2] at hm
  rw [hds, Arr.elems_amap]
  exact List.mem_map.2 ⟨Fl.pinf, hm, rfl⟩

lemma npmax_WF {l : List EVal} {M : EVal} (h : npmax l = Except.ok M)
    (hall : ∀ y ∈ l, y.WF) : M.WF := by
  cases l with
  | nil => exact Except.noConfusion h
  | cons x xs =>
    injection h with h
    rw [← h]
    exact foldl_max2_WF xs x (hall x (by simp))
      (fun y hy => hall y (by simp [hy]))

lemma npmax_nonNan {l : List EVal} {M : EVal} (h : npmax l = Except.ok M)
    (hall : ∀ y ∈ l, y.isNan = false) : M.isNan = false := by
  cases l with
  | nil => exact Except.noConfusion h
  | cons x xs =>
    injection h with h
    rw [← h]
    exact foldl_max2_nonNan xs x (hall x (by simp))
      (fun y hy => hall y (by simp [hy]))

lemma npmax_spec {l : List EVal} {M : EVal} (h : npmax l = Except.ok M)
    (hn : ∀ y ∈ l, y.isNan = false) (hw : ∀ y ∈ l, y.WF) :
    M ∈ l ∧ ∀ y ∈ l, y.toE ≤ M.toE := by
  cases l with
  | nil => exact Except.noConfusion h
  | cons x xs =>
    injection h with h
    rw [← h]
    exact foldl_max2_spec xs x hn hw

lemma npmax_pinf {l : List EVal} {M : EVal} (h : npmax l = Except.ok M)
    (hn : ∀ y ∈ l, y.isNan = false) (hw : ∀ y ∈ l, y.WF)
    (hp : EVal.pinf ∈ l) : M = EVal.pinf := by
  have hMn : M.isNan = false := npmax_nonNan h hn
  have hb := (npmax_spec h hn hw).2 EVal.pinf hp
  have htop : M.toE = ⊤ := top_le_iff.1 hb
  cases M with
  | lin a b r => exact absurd htop (EReal.coe_ne_top _)
  | pinf => rfl
  | ninf => exact absurd htop bot_ne_top
  | nan => simp [EVal.isNan] at hMn

/-- A nonempty elementwise result has nonempty operands. -/
lemma ewise_operands_ne_nil {f : Fl → Fl → Fl} {x y z : Arr Fl}
    (h : ewise f x y = Except.ok z) (hne : z.elems ≠ []) :
    x.elems ≠ [] ∧ y.elems ≠ [] := by
  cases x <;> cases y <;>
    try (refine ⟨?_, ?_⟩ <;> (simp [Arr.elems]; done))
  case pys.vec a bs =>
    refine ⟨by simp [Arr.elems], ?_⟩
    injection h with h
    subst h
    simp only [Arr.elems] at hne ⊢
    intro hb
    rw [hb] at hne
    exact hne rfl
  case nps.vec a bs =>
    refine ⟨by simp [Arr.elems], ?_⟩
    injection h with h
    subst h
    simp only [Arr.elems] at hne ⊢
    intro hb
    rw [hb] at hne
    exact hne rfl
  case vec.pys as_ b =>
    refine ⟨?_, by simp [Arr.elems]⟩
    injection h with h
    subst h
    simp only [Arr.elems] at hne ⊢
    intro ha
    rw [ha] at hne
    exact hne rfl
  case vec.nps as_ b =>
    refine ⟨?_, by simp [Arr.elems]⟩
    injection h with h
    subst h
    simp only [Arr.elems] at hne ⊢
    intro ha
    rw [ha] at hne
    exact hne rfl
  case vec.vec as_ bs =>
    constructor
    · intro ha
      subst ha
      by_cases hl : ([] : List Fl).length = bs.length
      · simp only [ewise, if_pos hl] at h
        injection h with h
        subst h
        simp [Arr.elems, List.zipWith] at hne
      · simp only [ewise, if_neg hl] at h
        rcases bs with _ | ⟨b, bs2⟩
        · exact absurd rfl hl
        · rcases bs2 with _ | ⟨b2, bs3⟩
          · injection h with h
            subst h
            simp [Arr.elems] at hne
          · exact Except.noConfusion h
    · intro hb
      subst hb
      by_cases hl : as_.length = ([] : List Fl).length
      · simp only [ewise, if_pos hl] at h
        injection h with h
        subst h
        simp [Arr.elems] at hne
      · simp only [ewise, if_neg hl] at h
        rcases as_ with _ | ⟨a, as2⟩
        · exact absurd rfl hl
        · rcases as2 with _ | ⟨a2, as3⟩
          · injection h with h
            subst h
            simp [Arr.elems] at hne
          · exact Except.noConfusion h

/-- Elementwise operation against a scalar: always succeeds, maps the
elements, and preserves the shape. -/
lemma ewise_scalar_right {f : Fl → Fl → Fl} (x : Arr Fl) {v : Fl}
    {y : Arr Fl} (hy : y = Arr.pys v ∨ y = Arr.nps v) :
    ∃ z, ewise f x y = Except.ok z ∧
      z.elems = x.elems.map (fun a => f a v) ∧
      z.bshape = x.bshape ∧ z.isPys = (x.isPys && y.isPys) := by
  rcases hy with rfl | rfl <;> cases x <;>
    exact ⟨_, rfl, by simp [Arr.elems], by simp [Arr.bshape],
      by simp [Arr.isPys]⟩

/-- Inversion of the signed-gradient pipeline into its stages. -/
lemma wind_shear_normal_dsn_inv {ut ub vt vb ca sa : Arr Fl} {dz : Fl}
    {dsn : Arr Fl}
    (h : wind_shear_normal_dsn ut ub vt vb ca sa dz = Except.ok dsn) :
    ∃ d1 du d2 dv p q,
      ewise Fl.sub ut ub = Except.ok d1 ∧
      ewise Fl.div d1 (Arr.pys dz) = Except.ok du ∧
      ewise Fl.sub vt vb = Except.ok d2 ∧
      ewise Fl.div d2 (Arr.pys dz) = Except.ok dv ∧
      ewise Fl.mul dv ca = Except.ok p ∧
      ewise Fl.mul du sa = Except.ok q ∧
      ewise Fl.sub p q = Except.ok dsn := by
  unfold wind_shear_normal_dsn at h
  rcases h1 : ewise Fl.sub ut ub with e | d1 <;> rw [h1] at h <;>
    simp only [Bind.bind, Except.bind] at h
  · exact Except.noConfusion h
  rcases h2 : ewise Fl.div d1 (Arr.pys dz) with e | du <;> rw [h2] at h <;>
    simp only [Bind.bind, Except.bind] at h
  · exact Except.noConfusion h
  rcases h3 : ewise Fl.sub vt vb with e | d2 <;> rw [h3] at h <;>
    simp only [Bind.bind, Except.bind] at h
  · exact Except.noConfusion h
  rcases h4 : ewise Fl.div d2 (Arr.pys dz) with e | dv <;> rw [h4] at h <;>
    simp only [Bind.bind, Except.bind] at h
  · exact Except.noConfusion h
  rcases h5 : ewise Fl.mul dv ca with e | p <;> rw [h5] at h <;>
    simp only [Bind.bind, Except.bind] at h
  · exact Except.noConfusion h
  rcases h6 : ewise Fl.mul du sa with e | q <;> rw [h6] at h <;>
    simp only [Bind.bind, Except.bind] at h
  · exact Except.noConfusion h
  exact ⟨d1, du, d2, dv, p, q, rfl, h2, rfl, h4, h5, h6, h⟩

/-- A `nan` among the gradient elements yields a `nan` in the signed
directional array (whatever the axis projections are). -/
lemma dsn_nan_of_grad_nan {du dv ca sa p q dsn : Arr Fl}
    (hp : ewise Fl.mul dv ca = Except.ok p)
    (hq : ewise Fl.mul du sa = Except.ok q)
    (hsub : ewise Fl.sub p q = Except.ok dsn) (hne : dsn.elems ≠ [])
    (hnan : Fl.nan ∈ du.elems ∨ Fl.nan ∈ dv.elems) :
    Fl.nan ∈ dsn.elems := by
  obtain ⟨hpne, hqne⟩ := ewise_operands_ne_nil hsub hne
  rcases hnan with hnan | hnan
  · obtain ⟨c, _, hm⟩ := ewise_cover_left hq hqne Fl.nan hnan
    rw [Fl.mul_nan_left] at hm
    obtain ⟨pe, _, hm2⟩ := ewise_cover_right hsub hne Fl.nan hm
    rw [Fl.sub_nan_right] at hm2
    exact hm2
  · obtain ⟨c, _, hm⟩ := ewise_cover_left hp hpne Fl.nan hnan
    rw [Fl.mul_nan_left] at hm
    obtain ⟨qe, _, hm2⟩ := ewise_cover_left hsub hne Fl.nan hm
    rw [Fl.sub_nan_left] at hm2
    exact hm2

/-- With finite scalar axis projections, a `nan` in the signed directional
array stems from a `nan` or infinite gradient element. -/
lemma dsn_nan_src {du dv ca sa p q dsn : Arr Fl} {cv sv : ℚ}
    (hca : ca = Arr.pys (Fl.fin cv) ∨ ca = Arr.nps (Fl.fin cv))
    (hsa : sa = Arr.pys (Fl.fin sv) ∨ sa = Arr.nps (Fl.fin sv))
    (hp : ewise Fl.mul dv ca = Except.ok p)
    (hq : ewise Fl.mul du sa = Except.ok q)
    (hsub : ewise Fl.sub p q = Except.ok dsn)
    (hnan : Fl.nan ∈ dsn.elems) :
    (Fl.nan ∈ du.elems ∨ Fl.nan ∈ dv.elems) ∨
      (∃ a ∈ du.elems, a = Fl.pinf ∨ a = Fl.ninf) ∨
      (∃ b ∈ dv.elems, b = Fl.pinf ∨ b = Fl.ninf) := by
  obtain ⟨pe, hpe, qe, hqe, hval⟩ := ewise_src hsub Fl.nan hnan
  obtain ⟨p2, hpok, hpel, _, _⟩ := ewise_scalar_right (f := Fl.mul) dv hca
  rw [hp] at hpok
  injection hpok with hpok
  subst hpok
  obtain ⟨q2, hqok, hqel, _, _⟩ := ewise_scalar_right (f := Fl.mul) du hsa
  rw [hq] at hqok
  injection hqok with hqok
  subst hqok
  rw [hpel] at hpe
  rw [hqel] at hqe
  obtain ⟨b0, hb0, hb0e⟩ := List.mem_map.1 hpe
  obtain ⟨a0, ha0, ha0e⟩ := List.mem_map.1 hqe
  rcases Fl.sub_nan_cases hval.symm with hc | hc | ⟨hc1, hc2⟩ | ⟨hc1, hc2⟩
  · rw [← hb0e] at hc
    rcases Fl.mul_fin_nan hc with h | h | h
    · exact Or.inl (Or.inr (by rw [← h]; exact hb0))
    · exact Or.inr (Or.inr ⟨b0, hb0, Or.inl h⟩)
    · exact Or.inr (Or.inr ⟨b0, hb0, Or.inr h⟩)
  · rw [← ha0e] at hc
    rcases Fl.mul_fin_nan hc with h | h | h
    · exact Or.inl (Or.inl (by rw [← h]; exact ha0))
    · exact Or.inr (Or.inl ⟨a0, ha0, Or.inl h⟩)
    · exact Or.inr (Or.inl ⟨a0, ha0, Or.inr h⟩)
  · rw [← hb0e] at hc1
    exact Or.inr (Or.inr ⟨b0, hb0, Fl.mul_fin_inf (Or.inl hc1)⟩)
  · rw [← hb0e] at hc1
    exact Or.inr (Or.inr ⟨b0, hb0, Fl.mul_fin_inf (Or.inr hc1)⟩)

/-! ### Claim theorems -/

set_option maxRecDepth 4000


/-- C1: For every input (contrail_depth, effective_vertical_resolution,
wind_shear_enhancement_exponent) on which the function returns (i.e. the
arrays broadcast), and for EVERY possible exponentiation semantics `powOp`,
`wind_shear_enhancement_factor` returns exactly the plain scalar constant
`1.0`; the intermediate `enhancement_factor = 0.5 * (1 + (res/depth)^exp)`
is computed but never returned and has no effect on the result (the result
does not depend on `powOp` at all). -/
theorem C1_enhancement_factor_constant_one
    (powOp : Fl → Fl → Fl)
    (contrail_depth effective_vertical_resolution
     wind_shear_enhancement_exponent : Arr Fl) (out : Arr Fl)
    (h : wind_shear_enhancement_factor powOp contrail_depth
      effective_vertical_resolution wind_shear_enhancement_exponent =
      Except.ok out) :
    out = Arr.pys (Fl.fin 1) := by
  unfold wind_shear_enhancement_factor at h
  rcases h1 : ewise Fl.div effective_vertical_resolution contrail_depth
    with e | rd <;> rw [h1] at h <;>
    simp only [Bind.bind, Except.bind] at h
  · exact Except.noConfusion h
  rcases h2 : ewise powOp rd wind_shear_enhancement_exponent with e | powr <;>
    rw [h2] at h <;> simp only [Bind.bind, Except.bind] at h
  · exact Except.noConfusion h
  rcases h3 : ewise Fl.add (Arr.pys (Fl.fin 1)) powr with e | x1 <;>
    rw [h3] at h <;> simp only [Bind.bind, Except.bind] at h
  · exact Except.noConfusion h
  rcases h4 : ewise Fl.mul (Arr.pys (Fl.fin (1 / 2))) x1 with e | x2 <;>
    rw [h4] at h <;> simp only [Bind.bind, Except.bind] at h
  · exact Except.noConfusion h
  injection h with h
  exact h.symm

theorem C1_witness :
    wind_shear_enhancement_factor (fun _ _ => Fl.nan) (Arr.vec [Fl.fin 50])
      (Arr.pys (Fl.fin 200)) (Arr.pys (Fl.fin 2)) =
      Except.ok (Arr.pys (Fl.fin 1)) ∧
    (Arr.pys (Fl.fin 1) : Arr Fl) = Arr.pys (Fl.fin 1) :=
  ⟨rfl, C1_enhancement_factor_constant_one (fun _ _ => Fl.nan)
    (Arr.vec [Fl.fin 50]) (Arr.pys (Fl.fin 200)) (Arr.pys (Fl.fin 2))
    (Arr.pys (Fl.fin 1)) rfl⟩

/-- C2: Whenever `wind_shear` returns, every element of the returned array
equals one single chosen bucket value (positive), and whenever
`wind_shear_normal` returns, every element equals the negative of one
single chosen bucket value. -/
theorem C2_constant_bucket_output :
    (∀ (u_wind_top u_wind_btm v_wind_top v_wind_btm : Arr Fl) (dz : Fl)
       (out : Arr Fl),
      wind_shear u_wind_top u_wind_btm v_wind_top v_wind_btm dz =
        Except.ok out →
      ∃ c ∈ shear_options, ∀ x ∈ out.elems, x = Fl.fin c) ∧
    (∀ (u_wind_top u_wind_btm v_wind_top v_wind_btm cos_a sin_a : Arr Fl)
       (dz : Fl) (out : Arr Fl),
      wind_shear_normal u_wind_top u_wind_btm v_wind_top v_wind_btm
        cos_a sin_a dz = Except.ok out →
      ∃ c ∈ shear_options, ∀ x ∈ out.elems, x = Fl.fin (-c)) := by
  constructor
  · intro ut ub vt vb dz out h
    obtain ⟨dsA, M, c0, shp, _, _, hsel, _, hout⟩ := wind_shear_ok_inv h
    refine ⟨if dsA.elems.any EVal.isNan then (2 / 1000 : ℚ) else c0, ?_, ?_⟩
    · by_cases hnan : dsA.elems.any EVal.isNan = true
      · simp [hnan, shear_options]
      · simp only [Bool.not_eq_true] at hnan
        simp [hnan]
        exact selectBucket_mem hsel
    · intro x hx
      rw [hout, whereFill_elems] at hx
      exact List.eq_of_mem_replicate hx
  · intro ut ub vt vb ca sa dz out h
    obtain ⟨dsn, dsA, M, c0, shp, _, _, _, hsel, _, _, hout⟩ :=
      wind_shear_normal_ok_inv h
    refine ⟨if dsn.elems.any Fl.isNan then (2 / 1000 : ℚ) else c0, ?_, ?_⟩
    · by_cases hnan : dsn.elems.any Fl.isNan = true
      · simp [hnan, shear_options]
      · simp only [Bool.not_eq_true] at hnan
        simp [hnan]
        exact selectBucket_mem hsel
    · intro x hx
      rw [hout, whereFill_elems] at hx
      exact List.eq_of_mem_replicate hx

theorem C2_witness :
    (∃ c ∈ shear_options,
      ∀ x ∈ (Arr.nps (Fl.fin (1 / 500)) : Arr Fl).elems, x = Fl.fin c) ∧
    (∃ c ∈ shear_options,
      ∀ x ∈ (Arr.nps (Fl.fin (-(1 / 500))) : Arr Fl).elems,
        x = Fl.fin (-c)) :=
  ⟨C2_constant_bucket_output.1 (Arr.nps (Fl.fin 1)) (Arr.nps (Fl.fin 0))
      (Arr.nps (Fl.fin 0)) (Arr.nps (Fl.fin 0)) (Fl.fin 1000)
      (Arr.nps (Fl.fin (1 / 500))) (by with_unfolding_all decide),
    C2_constant_bucket_output.2 (Arr.nps (Fl.fin 1)) (Arr.nps (Fl.fin 0))
      (Arr.nps (Fl.fin 0)) (Arr.nps (Fl.fin 0)) (Arr.nps (Fl.fin 1))
      (Arr.nps (Fl.fin 0)) (Fl.fin 1000)
      (Arr.nps (Fl.fin (-(1 / 500)))) (by with_unfolding_all decide)⟩

/-- C6: On the concrete input `u_top = [5, 10]`, `u_btm = [0, 0]`,
`v_top = [0, 0]`, `v_btm = [0, 0]`, `dz = 1000`, `wind_shear` returns
`[0.006, 0.006]`; on the same input with `cos_a = 1.0`, `sin_a = 0.0`,
`wind_shear_normal` returns `[-0.006, -0.006]` (its `dsn_dz = [0, 0]`
contains no NaN, and bucket selection uses the magnitude maximum
`M = 0.01`). -/
theorem C6_concrete_example :
    wind_shear (Arr.vec [Fl.fin 5, Fl.fin 10])
      (Arr.vec [Fl.fin 0, Fl.fin 0]) (Arr.vec [Fl.fin 0, Fl.fin 0])
      (Arr.vec [Fl.fin 0, Fl.fin 0]) (Fl.fin 1000) =
      Except.ok (Arr.vec [Fl.fin (6 / 1000), Fl.fin (6 / 1000)]) ∧
    wind_shear_normal (Arr.vec [Fl.fin 5, Fl.fin 10])
      (Arr.vec [Fl.fin 0, Fl.fin 0]) (Arr.vec [Fl.fin 0, Fl.fin 0])
      (Arr.vec [Fl.fin 0, Fl.fin 0]) (Arr.pys (Fl.fin 1))
      (Arr.pys (Fl.fin 0)) (Fl.fin 1000) =
      Except.ok (Arr.vec [Fl.fin (-(6 / 1000)), Fl.fin (-(6 / 1000))]) :=
  ⟨by with_unfolding_all decide, by with_unfolding_all decide⟩

lemma whereFill_bshape (shp : Shape) (c : ℚ) :
    (whereFill shp c).bshape = shp := by
  cases shp <;> simp [whereFill, Arr.bshape]

lemma whereFill_amap_neg (shp : Shape) (c : ℚ) :
    (whereFill shp c).amap Fl.neg = whereFill shp (-c) := by
  cases shp <;> simp [whereFill, Arr.amap, Fl.neg, List.map_replicate]

lemma Arr.shapeAttr_ok_inv {α : Type} {x : Arr α} {shp : Shape}
    (h : x.shapeAttr = Except.ok shp) :
    x.isPys = false ∧ x.bshape = shp := by
  cases x with
  | pys a => exact Except.noConfusion h
  | nps a =>
    injection h with h
    exact ⟨rfl, h⟩
  | vec xs =>
    injection h with h
    exact ⟨rfl, h⟩

lemma Arr.elems_length_shape {α : Type} {x : Arr α} {shp : Shape}
    (h : x.bshape = shp) : x.elems.length = shapeSize shp := by
  cases shp with
  | s0 => rw [Arr.elems_length_s0 h]; rfl
  | s1 n => rw [Arr.elems_length_s1 h]; rfl

lemma npmax_of_ne_nil {l : List EVal} (h : l ≠ []) :
    ∃ M, npmax l = Except.ok M := by
  cases l with
  | nil => exact absurd rfl h
  | cons x xs => exact ⟨xs.foldl EVal.max2 x, rfl⟩

lemma allNotNanE {l : List EVal} (h : l.any EVal.isNan = false) :
    ∀ y ∈ l, y.isNan = false := by
  intro y hy
  rcases hn : y.isNan with _ | _
  · rfl
  · exfalso
    have : l.any EVal.isNan = true := List.any_eq_true.2 ⟨y, hy, hn⟩
    rw [this] at h
    exact Bool.noConfusion h

lemma allNotNanF {l : List Fl} (h : l.any Fl.isNan = false) :
    ∀ y ∈ l, y.isNan = false := by
  intro y hy
  rcases hn : y.isNan with _ | _
  · rfl
  · exfalso
    have : l.any Fl.isNan = true := List.any_eq_true.2 ⟨y, hy, hn⟩
    rw [this] at h
    exact Bool.noConfusion h

/-- The magnitude array has the broadcast shape of the wind components. -/
lemma wind_shear_mag_bshape {ut ub vt vb : Arr Fl} {dz : Fl} {dsA : Arr EVal}
    (h : wind_shear_mag ut ub vt vb dz = Except.ok dsA) :
    windShape4 ut ub vt vb = Except.ok dsA.bshape := by
  obtain ⟨d1, du, d2, dv, s, h1, h2, h3, h4, h5, h6⟩ := wind_shear_mag_inv h
  have j1 : joinShape ut.bshape ub.bshape = Except.ok d1.bshape :=
    ewise_bshape h1
  have j2 : joinShape d1.bshape Shape.s0 = Except.ok du.bshape :=
    ewise_bshape h2
  rw [joinShape_s0_right] at j2
  injection j2 with j2
  have j3 : joinShape vt.bshape vb.bshape = Except.ok d2.bshape :=
    ewise_bshape h3
  have j4 : joinShape d2.bshape Shape.s0 = Except.ok dv.bshape :=
    ewise_bshape h4
  rw [joinShape_s0_right] at j4
  injection j4 with j4
  have j5 : joinShape du.bshape dv.bshape = Except.ok s.bshape := by
    have := ewise_bshape h5
    rwa [Arr.bshape_amap, Arr.bshape_amap] at this
  unfold windShape4
  rw [j1]
  simp only [Bind.bind, Except.bind]
  rw [j3]
  simp only [Bind.bind, Except.bind]
  rw [j2, j4, j5, h6, Arr.bshape_amap]

/-- The signed directional array has the broadcast shape of the wind
components and the axis projections. -/
lemma wind_shear_normal_dsn_bshape {ut ub vt vb ca sa : Arr Fl} {dz : Fl}
    {dsn : Arr Fl}
    (h : wind_shear_normal_dsn ut ub vt vb ca sa dz = Except.ok dsn) :
    windShapeN ut ub vt vb ca sa = Except.ok dsn.bshape := by
  obtain ⟨d1, du, d2, dv, p, q, h1, h2, h3, h4, h5, h6, h7⟩ :=
    wind_shear_normal_dsn_inv h
  have j1 : joinShape ut.bshape ub.bshape = Except.ok d1.bshape :=
    ewise_bshape h1
  have j2 : joinShape d1.bshape Shape.s0 = Except.ok du.bshape :=
    ewise_bshape h2
  rw [joinShape_s0_right] at j2
  injection j2 with j2
  have j3 : joinShape vt.bshape vb.bshape = Except.ok d2.bshape :=
    ewise_bshape h3
  have j4 : joinShape d2.bshape Shape.s0 = Except.ok dv.bshape :=
    ewise_bshape h4
  rw [joinShape_s0_right] at j4
  injection j4 with j4
  have j5 : joinShape dv.bshape ca.bshape = Except.ok p.bshape :=
    ewise_bshape h5
  have j6 : joinShape du.bshape sa.bshape = Except.ok q.bshape :=
    ewise_bshape h6
  have j7 : joinShape p.bshape q.bshape = Except.ok dsn.bshape :=
    ewise_bshape h7
  unfold windShapeN
  rw [j1]
  simp only [Bind.bind, Except.bind]
  rw [j3]
  simp only [Bind.bind, Except.bind]
  rw [j2, j4, j5]
  simp only [Bind.bind, Except.bind]
  rw [j6]
  simp only [Bind.bind, Except.bind]
  exact j7

lemma selectBucketVec_eq_spec (M : EVal) (hwf : M.WF)
    (hn : M.isNan = false) :
    selectBucketVec M = Except.ok (specBucket M) := by
  have hw1 : (EVal.eabs (EVal.rsub (2 / 1000) M)).WF := WF_eabs (WF_rsub _ hwf)
  have hw2 : (EVal.eabs (EVal.rsub (4 / 1000) M)).WF := WF_eabs (WF_rsub _ hwf)
  have hw3 : (EVal.eabs (EVal.rsub (6 / 1000) M)).WF := WF_eabs (WF_rsub _ hwf)
  have hn1 : (EVal.eabs (EVal.rsub (2 / 1000) M)).isNan = false := by
    rw [isNan_eabs, isNan_rsub]; exact hn
  have hn2 : (EVal.eabs (EVal.rsub (4 / 1000) M)).isNan = false := by
    rw [isNan_eabs, isNan_rsub]; exact hn
  have hn3 : (EVal.eabs (EVal.rsub (6 / 1000) M)).isNan = false := by
    rw [isNan_eabs, isNan_rsub]; exact hn
  set e1 := EVal.eabs (EVal.rsub (2 / 1000) M) with he1
  set e2 := EVal.eabs (EVal.rsub (4 / 1000) M) with he2
  set e3 := EVal.eabs (EVal.rsub (6 / 1000) M) with he3
  have hP : ∀ z : EVal, (z = e1 ∨ z = e2 ∨ z = e3) →
      z.WF ∧ z.isNan = false := by
    intro z hz
    rcases hz with h | h | h <;> rw [h] <;> exact ⟨by assumption, by assumption⟩
  have hcond : ∀ x ∈ [e2, e3], ∀ y : EVal,
      (y = e1 ∨ y ∈ [e2, e3]) → EVal.ltB x y = bltO x.toE y.toE := by
    intro x hx y hy
    have hx3 : x = e1 ∨ x = e2 ∨ x = e3 := by
      simp at hx
      tauto
    have hy3 : y = e1 ∨ y = e2 ∨ y = e3 := by
      rcases hy with h | h
      · exact Or.inl h
      · simp at h
        tauto
    obtain ⟨hxw, hxn⟩ := hP x hx3
    obtain ⟨hyw, hyn⟩ := hP y hy3
    rw [ltB_correct hxw hyw hxn hyn]
    rfl
  have hfind : List.findIdx? EVal.isNan [e1, e2, e3] = none := by
    simp [List.findIdx?_cons, hn1, hn2, hn3]
  have hscan : argminScan EVal.ltB [e2, e3] e1 1 0 =
      if e1.toE ≤ e2.toE ∧ e1.toE ≤ e3.toE then 0
      else if e2.toE ≤ e3.toE then 1 else 2 := by
    rw [argminScan_congr EVal.toE EVal.ltB bltO _ _ _ _ hcond]
    simp only [List.map_cons, List.map_nil]
    rw [scan3_closed]
  have hnp : npargmin [e1, e2, e3] =
      Except.ok (argminScan EVal.ltB [e2, e3] e1 1 0) := by
    show (match List.findIdx? EVal.isNan [e1, e2, e3] with
      | some i => Except.ok i
      | none => Except.ok (argminScan EVal.ltB [e2, e3] e1 1 0)) = _
    rw [hfind]
  have hflat : selectBucketVec M =
      (npargmin [e1, e2, e3]).bind
        (fun index_min =>
          match shear_options.get? index_min with
          | some c => Except.ok c
          | none => Except.error Err.indexError) := by
    rw [he1, he2, he3]
    rfl
  rw [hflat, hnp]
  simp only [Except.bind]
  rw [hscan]
  unfold specBucket
  rw [← he1, ← he2, ← he3,
    leB_correct hw1 hw2 hn1 hn2, leB_correct hw1 hw3 hn1 hn3,
    leB_correct hw2 hw3 hn2 hn3]
  by_cases hA : e1.toE ≤ e2.toE ∧ e1.toE ≤ e3.toE
  · simp [hA, hA.1, hA.2, shear_options, Except.bind]
  · rw [if_neg hA]
    by_cases hB : e2.toE ≤ e3.toE
    · have : ¬ (decide (e1.toE ≤ e2.toE) && decide (e1.toE ≤ e3.toE)) = true := by
        simp
        intro h1
        exact not_le.1 (fun h2 => hA ⟨h1, h2⟩)
      simp [hB, this, shear_options, Except.bind]
    · have hand : ¬ (decide (e1.toE ≤ e2.toE) && decide (e1.toE ≤ e3.toE)) = true := by
        simp
        intro h1
        exact not_le.1 (fun h2 => hA ⟨h1, h2⟩)
      simp [hB, hand, shear_options, Except.bind]

/-- C5 (amended): the result shape of `wind_shear` equals the broadcast
shape of its wind-component inputs, but the result shape of
`wind_shear_normal` equals the broadcast shape of its wind-component
inputs TOGETHER WITH `cos_a` and `sin_a` — it does depend on the shapes of
`cos_a` and `sin_a`. -/
theorem C5_result_shapes :
    (∀ (u_wind_top u_wind_btm v_wind_top v_wind_btm : Arr Fl) (dz : Fl)
       (out : Arr Fl),
      wind_shear u_wind_top u_wind_btm v_wind_top v_wind_btm dz =
        Except.ok out →
      windShape4 u_wind_top u_wind_btm v_wind_top v_wind_btm =
        Except.ok out.bshape) ∧
    (∀ (u_wind_top u_wind_btm v_wind_top v_wind_btm cos_a sin_a : Arr Fl)
       (dz : Fl) (out : Arr Fl),
      wind_shear_normal u_wind_top u_wind_btm v_wind_top v_wind_btm
        cos_a sin_a dz = Except.ok out →
      windShapeN u_wind_top u_wind_btm v_wind_top v_wind_btm cos_a sin_a =
        Except.ok out.bshape) := by
  constructor
  · intro ut ub vt vb dz out h
    obtain ⟨dsA, M, c0, shp, h1, _, _, h4, hout⟩ := wind_shear_ok_inv h
    rw [hout, whereFill_bshape, ← (Arr.shapeAttr_ok_inv h4).2]
    exact wind_shear_mag_bshape h1
  · intro ut ub vt vb ca sa dz out h
    obtain ⟨dsn, dsA, M, c0, shp, h0, _, _, _, h4, _, hout⟩ :=
      wind_shear_normal_ok_inv h
    rw [hout, whereFill_bshape, ← (Arr.shapeAttr_ok_inv h4).2]
    exact wind_shear_normal_dsn_bshape h0

theorem C5_witness :
    (windShape4 (Arr.vec [Fl.fin 5, Fl.fin 10]) (Arr.vec [Fl.fin 0, Fl.fin 0])
        (Arr.vec [Fl.fin 0, Fl.fin 0]) (Arr.vec [Fl.fin 0, Fl.fin 0]) =
      Except.ok (Arr.vec [Fl.fin (6 / 1000), Fl.fin (6 / 1000)] :
        Arr Fl).bshape) :=
  C5_result_shapes.1 (Arr.vec [Fl.fin 5, Fl.fin 10])
    (Arr.vec [Fl.fin 0, Fl.fin 0]) (Arr.vec [Fl.fin 0, Fl.fin 0])
    (Arr.vec [Fl.fin 0, Fl.fin 0]) (Fl.fin 1000)
    (Arr.vec [Fl.fin (6 / 1000), Fl.fin (6 / 1000)])
    (by with_unfolding_all decide)

/-- C5 counterexample: with scalar wind components and a length-2 `cos_a`,
`wind_shear_normal` returns a length-2 array, whose shape differs from the
broadcast shape of the wind components alone — refuting the original
claim that the result shape does not depend on the shapes of `cos_a` and
`sin_a`. -/
theorem C5_counterexample :
    wind_shear_normal (Arr.nps (Fl.fin 0)) (Arr.nps (Fl.fin 0))
      (Arr.nps (Fl.fin 0)) (Arr.nps (Fl.fin 0))
      (Arr.vec [Fl.fin 0, Fl.fin 0]) (Arr.nps (Fl.fin 0)) (Fl.fin 1) =
      Except.ok (Arr.vec [Fl.fin (-(2 / 1000)), Fl.fin (-(2 / 1000))]) ∧
    windShape4 (Arr.nps (Fl.fin 0)) (Arr.nps (Fl.fin 0))
      (Arr.nps (Fl.fin 0)) (Arr.nps (Fl.fin 0)) = Except.ok Shape.s0 ∧
    (Arr.vec [Fl.fin (-(2 / 1000)), Fl.fin (-(2 / 1000))] :
      Arr Fl).bshape ≠ Shape.s0 :=
  ⟨by with_unfolding_all decide, rfl, by decide⟩

/-- C7: for every value of `shear_max`, the loop-built 3 x 3 distance
matrix (three identical rows) with a flattened `np.argmin` selects exactly
the same bucket as a single arg-min over the one distance vector
`|shear_options - shear_max|`. -/
theorem C7_matrix_argmin_equals_vector_argmin (shear_max : EVal)
    (hwf : shear_max.WF) :
    selectBucket shear_max = selectBucketVec shear_max := by
  by_cases hn : shear_max.isNan = true
  · have hM : shear_max = EVal.nan := by
      cases shear_max <;> simp_all [EVal.isNan]
    rw [hM]
    rfl
  · rw [selectBucket_eq_spec shear_max hwf (by simpa using hn),
      selectBucketVec_eq_spec shear_max hwf (by simpa using hn)]

theorem C7_witness :
    selectBucket (EVal.lin 0 1 2) = selectBucketVec (EVal.lin 0 1 2) :=
  C7_matrix_argmin_equals_vector_argmin (EVal.lin 0 1 2)
    (show (0 : ℚ) ≤ 2 by norm_num)

/-- C8 counterexample: with a plain Python float for every array-typed
parameter, both `wind_shear` and `wind_shear_normal` raise
`AttributeError` at the `.shape` access on the computed gradient (a plain
`float` has no `.shape`), instead of completing. -/
theorem C8_counterexample :
    wind_shear (Arr.pys (Fl.fin 1)) (Arr.pys (Fl.fin 0))
      (Arr.pys (Fl.fin 0)) (Arr.pys (Fl.fin 0)) (Fl.fin 1000) =
      Except.error Err.attributeError ∧
    wind_shear_normal (Arr.pys (Fl.fin 1)) (Arr.pys (Fl.fin 0))
      (Arr.pys (Fl.fin 0)) (Arr.pys (Fl.fin 0)) (Arr.pys (Fl.fin 1))
      (Arr.pys (Fl.fin 0)) (Fl.fin 1000) =
      Except.error Err.attributeError :=
  ⟨by with_unfolding_all decide, by with_unfolding_all decide⟩

/-- C8 (amended): for every all-scalar choice of inputs in which the
array-typed parameters are NumPy float64 scalars (0-d values carrying a
`.shape`), both functions complete without error and return their
constant-bucket scalar result; with plain Python float scalars the
`.shape` access raises `AttributeError` (see the counterexample). -/
theorem C8_numpy_scalars_complete :
    (∀ a b c d dz : Fl, ∃ q ∈ shear_options,
      wind_shear (Arr.nps a) (Arr.nps b) (Arr.nps c) (Arr.nps d) dz =
        Except.ok (Arr.nps (Fl.fin q))) ∧
    (∀ a b c d ca sa dz : Fl, ∃ q ∈ shear_options,
      wind_shear_normal (Arr.nps a) (Arr.nps b) (Arr.nps c) (Arr.nps d)
        (Arr.nps ca) (Arr.nps sa) dz =
        Except.ok (Arr.nps (Fl.fin (-q)))) := by
  constructor
  · intro a b c d dz
    have hmag : wind_shear_mag (Arr.nps a) (Arr.nps b) (Arr.nps c)
        (Arr.nps d) dz = Except.ok (Arr.nps (powHalf
          (Fl.add (Fl.sq (Fl.div (Fl.sub a b) dz))
            (Fl.sq (Fl.div (Fl.sub c d) dz))))) := rfl
    set M := powHalf (Fl.add (Fl.sq (Fl.div (Fl.sub a b) dz))
      (Fl.sq (Fl.div (Fl.sub c d) dz))) with hM
    have hmax : npmax (Arr.nps M : Arr EVal).elems = Except.ok M := rfl
    obtain ⟨c0, hc, hmem⟩ := selectBucket_ok M (WF_powHalf _)
    have := wind_shear_run hmag hmax hc
      (show (Arr.nps M : Arr EVal).shapeAttr = Except.ok Shape.s0 from rfl)
    refine ⟨if (Arr.nps M : Arr EVal).elems.any EVal.isNan
      then (2 / 1000 : ℚ) else c0, ?_, this⟩
    by_cases hnan : (Arr.nps M : Arr EVal).elems.any EVal.isNan = true
    · simp [hnan, shear_options]
    · simp only [Bool.not_eq_true] at hnan
      simp [hnan]
      exact hmem
  · intro a b c d ca sa dz
    have hdsn : wind_shear_normal_dsn (Arr.nps a) (Arr.nps b) (Arr.nps c)
        (Arr.nps d) (Arr.nps ca) (Arr.nps sa) dz = Except.ok (Arr.nps
          (Fl.sub (Fl.mul (Fl.div (Fl.sub c d) dz) ca)
            (Fl.mul (Fl.div (Fl.sub a b) dz) sa))) := rfl
    have hmag : wind_shear_mag (Arr.nps a) (Arr.nps b) (Arr.nps c)
        (Arr.nps d) dz = Except.ok (Arr.nps (powHalf
          (Fl.add (Fl.sq (Fl.div (Fl.sub a b) dz))
            (Fl.sq (Fl.div (Fl.sub c d) dz))))) := rfl
    set M := powHalf (Fl.add (Fl.sq (Fl.div (Fl.sub a b) dz))
      (Fl.sq (Fl.div (Fl.sub c d) dz))) with hM
    set D := Fl.sub (Fl.mul (Fl.div (Fl.sub c d) dz) ca)
      (Fl.mul (Fl.div (Fl.sub a b) dz) sa) with hD
    have hmax : npmax (Arr.nps M : Arr EVal).elems = Except.ok M := rfl
    obtain ⟨c0, hc, hmem⟩ := selectBucket_ok M (WF_powHalf _)
    have := wind_shear_normal_run hdsn hmag hmax hc
      (show (Arr.nps D : Arr Fl).shapeAttr = Except.ok Shape.s0 from rfl)
      (by simp [shapeSize])
    refine ⟨if (Arr.nps D : Arr Fl).elems.any Fl.isNan
      then (2 / 1000 : ℚ) else c0, ?_, this⟩
    by_cases hnan : (Arr.nps D : Arr Fl).elems.any Fl.isNan = true
    · simp [hnan, shear_options]
    · simp only [Bool.not_eq_true] at hnan
      simp [hnan]
      exact hmem

/-- C4: if any element of the governing gradient array (`ds_dz` for
`wind_shear`, `dsn_dz` for `wind_shear_normal`) is NaN, the chosen bucket
is forced to `2e-3` regardless of the magnitude maximum, and the function
returns the constant finite array `+0.002` (resp. `-0.002`) of the
governing shape instead of propagating the NaN — no exception is
raised. -/
theorem C4_nan_forces_lowest_bucket :
    (∀ (u_wind_top u_wind_btm v_wind_top v_wind_btm : Arr Fl) (dz : Fl)
       (dsA : Arr EVal) (M : EVal) (shp : Shape),
      wind_shear_mag u_wind_top u_wind_btm v_wind_top v_wind_btm dz =
        Except.ok dsA →
      npmax dsA.elems = Except.ok M →
      dsA.shapeAttr = Except.ok shp →
      dsA.elems.any EVal.isNan = true →
      wind_shear u_wind_top u_wind_btm v_wind_top v_wind_btm dz =
        Except.ok (whereFill shp (2 / 1000))) ∧
    (∀ (u_wind_top u_wind_btm v_wind_top v_wind_btm cos_a sin_a : Arr Fl)
       (dz : Fl) (dsn : Arr Fl) (dsA : Arr EVal) (M : EVal) (shp : Shape),
      wind_shear_normal_dsn u_wind_top u_wind_btm v_wind_top v_wind_btm
        cos_a sin_a dz = Except.ok dsn →
      wind_shear_mag u_wind_top u_wind_btm v_wind_top v_wind_btm dz =
        Except.ok dsA →
      npmax dsA.elems = Except.ok M →
      dsn.shapeAttr = Except.ok shp →
      dsn.elems.any Fl.isNan = true →
      wind_shear_normal u_wind_top u_wind_btm v_wind_top v_wind_btm
        cos_a sin_a dz = Except.ok (whereFill shp (-(2 / 1000)))) := by
  constructor
  · intro ut ub vt vb dz dsA M shp h1 h2 h3 hnan
    have hMWF : M.WF := npmax_WF h2 (wind_shear_mag_WF h1)
    obtain ⟨c0, hc, _⟩ := selectBucket_ok M hMWF
    have := wind_shear_run h1 h2 hc h3
    rw [if_pos hnan] at this
    exact this
  · intro ut ub vt vb ca sa dz dsn dsA M shp h0 h1 h2 h3 hnan
    have hMWF : M.WF := npmax_WF h2 (wind_shear_mag_WF h1)
    obtain ⟨c0, hc, _⟩ := selectBucket_ok M hMWF
    have hdne : dsn.elems ≠ [] := by
      intro he
      rw [he] at hnan
      exact Bool.noConfusion hnan
    have hsz : shapeSize shp ≠ 0 := by
      have hb := (Arr.shapeAttr_ok_inv h3).2
      have := Arr.elems_length_shape hb
      intro hz
      rw [hz] at this
      exact hdne (List.length_eq_zero.1 this)
    have := wind_shear_normal_run h0 h1 h2 hc h3 hsz
    rw [if_pos hnan] at this
    exact this

theorem C4_witness :
    wind_shear (Arr.nps (Fl.fin 0)) (Arr.nps (Fl.fin 0))
      (Arr.nps (Fl.fin 0)) (Arr.nps (Fl.fin 0)) (Fl.fin 0) =
      Except.ok (whereFill Shape.s0 (2 / 1000)) ∧
    wind_shear_normal (Arr.nps (Fl.fin 0)) (Arr.nps (Fl.fin 0))
      (Arr.nps (Fl.fin 0)) (Arr.nps (Fl.fin 0)) (Arr.nps (Fl.fin 1))
      (Arr.nps (Fl.fin 0)) (Fl.fin 0) =
      Except.ok (whereFill Shape.s0 (-(2 / 1000))) :=
  ⟨C4_nan_forces_lowest_bucket.1 (Arr.nps (Fl.fin 0)) (Arr.nps (Fl.fin 0))
      (Arr.nps (Fl.fin 0)) (Arr.nps (Fl.fin 0)) (Fl.fin 0)
      (Arr.nps EVal.nan) EVal.nan Shape.s0
      (by with_unfolding_all decide) (by with_unfolding_all decide)
      (by with_unfolding_all decide) (by with_unfolding_all decide),
    C4_nan_forces_lowest_bucket.2 (Arr.nps (Fl.fin 0)) (Arr.nps (Fl.fin 0))
      (Arr.nps (Fl.fin 0)) (Arr.nps (Fl.fin 0)) (Arr.nps (Fl.fin 1))
      (Arr.nps (Fl.fin 0)) (Fl.fin 0) (Arr.nps Fl.nan)
      (Arr.nps EVal.nan) EVal.nan Shape.s0
      (by with_unfolding_all decide) (by with_unfolding_all decide)
      (by with_unfolding_all decide) (by with_unfolding_all decide)
      (by with_unfolding_all decide)⟩

/-- C10: when the gradient arrays contain an infinity but no NaN (e.g.
`dz = 0` with unequal winds), the magnitude maximum is `+inf`, all three
candidate distances are infinite, the arg-min resolves to the first
candidate, and the output is the constant `+0.002` (resp. `-0.002`) array
without the NaN override firing; moreover every value either function ever
returns consists solely of finite bucket values — never an infinity or a
NaN. -/
theorem C10_infinite_max_lowest_bucket :
    (∀ (u_wind_top u_wind_btm v_wind_top v_wind_btm : Arr Fl) (dz : Fl)
       (dsA : Arr EVal) (shp : Shape),
      wind_shear_mag u_wind_top u_wind_btm v_wind_top v_wind_btm dz =
        Except.ok dsA →
      dsA.shapeAttr = Except.ok shp →
      EVal.pinf ∈ dsA.elems →
      dsA.elems.any EVal.isNan = false →
      wind_shear u_wind_top u_wind_btm v_wind_top v_wind_btm dz =
        Except.ok (whereFill shp (2 / 1000))) ∧
    (∀ (u_wind_top u_wind_btm v_wind_top v_wind_btm cos_a sin_a : Arr Fl)
       (dz : Fl) (dsn : Arr Fl) (dsA : Arr EVal) (shp : Shape),
      wind_shear_normal_dsn u_wind_top u_wind_btm v_wind_top v_wind_btm
        cos_a sin_a dz = Except.ok dsn →
      wind_shear_mag u_wind_top u_wind_btm v_wind_top v_wind_btm dz =
        Except.ok dsA →
      dsn.shapeAttr = Except.ok shp →
      shapeSize shp ≠ 0 →
      EVal.pinf ∈ dsA.elems →
      dsA.elems.any EVal.isNan = false →
      dsn.elems.any Fl.isNan = false →
      wind_shear_normal u_wind_top u_wind_btm v_wind_top v_wind_btm
        cos_a sin_a dz = Except.ok (whereFill shp (-(2 / 1000)))) ∧
    (∀ (u_wind_top u_wind_btm v_wind_top v_wind_btm : Arr Fl) (dz : Fl)
       (out : Arr Fl),
      wind_shear u_wind_top u_wind_btm v_wind_top v_wind_btm dz =
        Except.ok out →
      ∀ x ∈ out.elems, ∃ q : ℚ, x = Fl.fin q) ∧
    (∀ (u_wind_top u_wind_btm v_wind_top v_wind_btm cos_a sin_a : Arr Fl)
       (dz : Fl) (out : Arr Fl),
      wind_shear_normal u_wind_top u_wind_btm v_wind_top v_wind_btm
        cos_a sin_a dz = Except.ok out →
      ∀ x ∈ out.elems, ∃ q : ℚ, x = Fl.fin q) := by
  refine ⟨?_, ?_, ?_, ?_⟩
  · intro ut ub vt vb dz dsA shp h1 h3 hpinf hnonan
    obtain ⟨M, h2⟩ := npmax_of_ne_nil
      (show dsA.elems ≠ [] from fun he => by rw [he] at hpinf; simp at hpinf)
    have hMp : M = EVal.pinf :=
      npmax_pinf h2 (allNotNanE hnonan) (wind_shear_mag_WF h1) hpinf
    have hc : selectBucket M = Except.ok (2 / 1000) := by
      rw [hMp]
      exact selectBucket_pinf
    have := wind_shear_run h1 h2 hc h3
    rw [if_neg (by rw [hnonan]; exact Bool.noConfusion)] at this
    exact this
  · intro ut ub vt vb ca sa dz dsn dsA shp h0 h1 h3 hsz hpinf hnonan hnonan2
    obtain ⟨M, h2⟩ := npmax_of_ne_nil
      (show dsA.elems ≠ [] from fun he => by rw [he] at hpinf; simp at hpinf)
    have hMp : M = EVal.pinf :=
      npmax_pinf h2 (allNotNanE hnonan) (wind_shear_mag_WF h1) hpinf
    have hc : selectBucket M = Except.ok (2 / 1000) := by
      rw [hMp]
      exact selectBucket_pinf
    have := wind_shear_normal_run h0 h1 h2 hc h3 hsz
    rw [if_neg (by rw [hnonan2]; exact Bool.noConfusion)] at this
    exact this
  · intro ut ub vt vb dz out h
    obtain ⟨dsA, M, c0, shp, _, _, _, _, hout⟩ := wind_shear_ok_inv h
    intro x hx
    rw [hout, whereFill_elems] at hx
    exact ⟨_, List.eq_of_mem_replicate hx⟩
  · intro ut ub vt vb ca sa dz out h
    obtain ⟨dsn, dsA, M, c0, shp, _, _, _, _, _, _, hout⟩ :=
      wind_shear_normal_ok_inv h
    intro x hx
    rw [hout, whereFill_elems] at hx
    exact ⟨_, List.eq_of_mem_replicate hx⟩

theorem C10_witness :
    wind_shear (Arr.nps (Fl.fin 1)) (Arr.nps (Fl.fin 0))
      (Arr.nps (Fl.fin 2)) (Arr.nps (Fl.fin 1)) (Fl.fin 0) =
      Except.ok (whereFill Shape.s0 (2 / 1000)) ∧
    wind_shear_normal (Arr.nps (Fl.fin 1)) (Arr.nps (Fl.fin 0))
      (Arr.nps (Fl.fin 2)) (Arr.nps (Fl.fin 1)) (Arr.pys (Fl.fin 1))
      (Arr.pys (Fl.fin (-1))) (Fl.fin 0) =
      Except.ok (whereFill Shape.s0 (-(2 / 1000))) ∧
    (∀ x ∈ (whereFill Shape.s0 (2 / 1000)).elems, ∃ q : ℚ, x = Fl.fin q) :=
  ⟨C10_infinite_max_lowest_bucket.1 (Arr.nps (Fl.fin 1))
      (Arr.nps (Fl.fin 0)) (Arr.nps (Fl.fin 2)) (Arr.nps (Fl.fin 1))
      (Fl.fin 0) (Arr.nps EVal.pinf) Shape.s0
      (by with_unfolding_all decide) (by with_unfolding_all decide)
      (by with_unfolding_all decide) (by with_unfolding_all decide),
    C10_infinite_max_lowest_bucket.2.1 (Arr.nps (Fl.fin 1))
      (Arr.nps (Fl.fin 0)) (Arr.nps (Fl.fin 2)) (Arr.nps (Fl.fin 1))
      (Arr.pys (Fl.fin 1)) (Arr.pys (Fl.fin (-1))) (Fl.fin 0)
      (Arr.nps Fl.pinf) (Arr.nps EVal.pinf) Shape.s0
      (by with_unfolding_all decide) (by with_unfolding_all decide)
      (by with_unfolding_all decide) (by with_unfolding_all decide)
      (by with_unfolding_all decide) (by with_unfolding_all decide)
      (by with_unfolding_all decide),
    C10_infinite_max_lowest_bucket.2.2.1 (Arr.nps (Fl.fin 1))
      (Arr.nps (Fl.fin 0)) (Arr.nps (Fl.fin 2)) (Arr.nps (Fl.fin 1))
      (Fl.fin 0) (whereFill Shape.s0 (2 / 1000))
      (by with_unfolding_all decide)⟩

/-- C3: in both functions, when the governing gradient array contains no
NaN, the chosen bucket is the candidate nearest to `M` (ties to the
smaller candidate), where `M = np.max(ds_dz)` is the maximum of the
magnitude array `sqrt(du_dz^2 + dv_dz^2)` — never of the signed
`dsn_dz`.  The theorem also certifies that `M` is an element of the
magnitude array that dominates every element. -/
theorem C3_bucket_is_nearest_to_magnitude_max :
    (∀ (u_wind_top u_wind_btm v_wind_top v_wind_btm : Arr Fl) (dz : Fl)
       (out : Arr Fl) (dsA : Arr EVal) (M : EVal),
      wind_shear u_wind_top u_wind_btm v_wind_top v_wind_btm dz =
        Except.ok out →
      wind_shear_mag u_wind_top u_wind_btm v_wind_top v_wind_btm dz =
        Except.ok dsA →
      npmax dsA.elems = Except.ok M →
      dsA.elems.any EVal.isNan = false →
      (M ∈ dsA.elems ∧ ∀ y ∈ dsA.elems, EVal.leB y M = true) ∧
      ∀ x ∈ out.elems, x = Fl.fin (specBucket M)) ∧
    (∀ (u_wind_top u_wind_btm v_wind_top v_wind_btm cos_a sin_a : Arr Fl)
       (dz : Fl) (out : Arr Fl) (dsn : Arr Fl) (dsA : Arr EVal) (M : EVal),
      wind_shear_normal u_wind_top u_wind_btm v_wind_top v_wind_btm
        cos_a sin_a dz = Except.ok out →
      wind_shear_normal_dsn u_wind_top u_wind_btm v_wind_top v_wind_btm
        cos_a sin_a dz = Except.ok dsn →
      wind_shear_mag u_wind_top u_wind_btm v_wind_top v_wind_btm dz =
        Except.ok dsA →
      npmax dsA.elems = Except.ok M →
      dsn.elems.any Fl.isNan = false →
      (M ∈ dsA.elems ∧ ∀ y ∈ dsA.elems, EVal.leB y M = true) ∧
      ∀ x ∈ out.elems, x = Fl.fin (-(specBucket M))) := by
  constructor
  · intro ut ub vt vb dz out dsA M h h1 h2 hno
    obtain ⟨dsA2, M2, c02, shp, e1, e2, e3, e4, hout⟩ := wind_shear_ok_inv h
    rw [h1] at e1
    injection e1 with e1
    subst e1
    rw [h2] at e2
    injection e2 with e2
    subst e2
    have hWFl := wind_shear_mag_WF h1
    have hNl := allNotNanE hno
    have hMWF : M.WF := npmax_WF h2 hWFl
    have hMN : M.isNan = false := npmax_nonNan h2 hNl
    have hspec := selectBucket_eq_spec M hMWF hMN
    rw [hspec] at e3
    injection e3 with e3
    obtain ⟨hmem, hbound⟩ := npmax_spec h2 hNl hWFl
    refine ⟨⟨hmem, ?_⟩, ?_⟩
    · intro y hy
      rw [leB_correct (hWFl y hy) hMWF (hNl y hy) hMN]
      exact decide_eq_true (hbound y hy)
    · intro x hx
      rw [hout, if_neg (by rw [hno]; exact Bool.noConfusion),
        whereFill_elems] at hx
      rw [List.eq_of_mem_replicate hx, e3]
  · intro ut ub vt vb ca sa dz out dsn dsA M h h0 h1 h2 hno
    obtain ⟨dsn2, dsA2, M2, c02, shp, e0, e1, e2, e3, e4, hsz, hout⟩ :=
      wind_shear_normal_ok_inv h
    rw [h0] at e0
    injection e0 with e0
    subst e0
    rw [h1] at e1
    injection e1 with e1
    subst e1
    rw [h2] at e2
    injection e2 with e2
    subst e2
    have hdsnactive : dsn.elems ≠ [] := by
      have hb := (Arr.shapeAttr_ok_inv e4).2
      have hl := Arr.elems_length_shape hb
      intro hnil
      rw [hnil] at hl
      exact hsz (by simpa using hl.symm)
    have hnoA : dsA.elems.any EVal.isNan = false := by
      rcases hA : dsA.elems.any EVal.isNan with _ | _
      · rfl
      · exfalso
        have hnanA : EVal.nan ∈ dsA.elems := (anyNanE_iff _).1 hA
        obtain ⟨d1, du, d2, dv, s, m1, m2, m3, m4, m5, m6⟩ :=
          wind_shear_mag_inv h1
        obtain ⟨d1b, dub, d2b, dvb, p, q, n1, n2, n3, n4, n5, n6, n7⟩ :=
          wind_shear_normal_dsn_inv h0
        rw [m1] at n1
        injection n1 with n1
        subst n1
        rw [m2] at n2
        injection n2 with n2
        subst n2
        rw [m3] at n3
        injection n3 with n3
        subst n3
        rw [m4] at n4
        injection n4 with n4
        subst n4
        have hgrad := mag_nan_src m5 m6 hnanA
        have hdn := dsn_nan_of_grad_nan n5 n6 n7 hdsnactive hgrad
        have : dsn.elems.any Fl.isNan = true := (anyNanF_iff _).2 hdn
        rw [this] at hno
        exact Bool.noConfusion hno
    have hWFl := wind_shear_mag_WF h1
    have hNl := allNotNanE hnoA
    have hMWF : M.WF := npmax_WF h2 hWFl
    have hMN : M.isNan = false := npmax_nonNan h2 hNl
    have hspec := selectBucket_eq_spec M hMWF hMN
    rw [hspec] at e3
    injection e3 with e3
    obtain ⟨hmem, hbound⟩ := npmax_spec h2 hNl hWFl
    refine ⟨⟨hmem, ?_⟩, ?_⟩
    · intro y hy
      rw [leB_correct (hWFl y hy) hMWF (hNl y hy) hMN]
      exact decide_eq_true (hbound y hy)
    · intro x hx
      rw [hout, if_neg (by rw [hno]; exact Bool.noConfusion),
        whereFill_elems] at hx
      rw [List.eq_of_mem_replicate hx, e3]

theorem C3_witness :
    (EVal.lin 0 1 100 ∈
        (Arr.vec [EVal.lin 0 1 25, EVal.lin 0 1 100] : Arr EVal).elems ∧
      ∀ y ∈ (Arr.vec [EVal.lin 0 1 25, EVal.lin 0 1 100] :
          Arr EVal).elems,
        EVal.leB y (EVal.lin 0 1 100) = true) ∧
    ∀ x ∈ (Arr.vec [Fl.fin (6 / 1000), Fl.fin (6 / 1000)] : Arr Fl).elems,
      x = Fl.fin (specBucket (EVal.lin 0 1 100)) :=
  C3_bucket_is_nearest_to_magnitude_max.1 (Arr.vec [Fl.fin 5, Fl.fin 10])
    (Arr.vec [Fl.fin 0, Fl.fin 0]) (Arr.vec [Fl.fin 0, Fl.fin 0])
    (Arr.vec [Fl.fin 0, Fl.fin 0]) (Fl.fin 1)
    (Arr.vec [Fl.fin (6 / 1000), Fl.fin (6 / 1000)])
    (Arr.vec [EVal.lin 0 1 25, EVal.lin 0 1 100])
    (EVal.lin 0 1 100)
    (by with_unfolding_all decide) (by with_unfolding_all decide)
    (by with_unfolding_all decide) (by with_unfolding_all decide)

/-- Forward run of the signed-gradient pipeline from successful stages. -/
lemma wind_shear_normal_dsn_run {ut ub vt vb ca sa : Arr Fl} {dz : Fl}
    {d1 du d2 dv p q dsn : Arr Fl}
    (h1 : ewise Fl.sub ut ub = Except.ok d1)
    (h2 : ewise Fl.div d1 (Arr.pys dz) = Except.ok du)
    (h3 : ewise Fl.sub vt vb = Except.ok d2)
    (h4 : ewise Fl.div d2 (Arr.pys dz) = Except.ok dv)
    (h5 : ewise Fl.mul dv ca = Except.ok p)
    (h6 : ewise Fl.mul du sa = Except.ok q)
    (h7 : ewise Fl.sub p q = Except.ok dsn) :
    wind_shear_normal_dsn ut ub vt vb ca sa dz = Except.ok dsn := by
  unfold wind_shear_normal_dsn
  rw [h1]
  simp only [Bind.bind, Except.bind]
  rw [h2]
  simp only [Bind.bind, Except.bind]
  rw [h3]
  simp only [Bind.bind, Except.bind]
  rw [h4]
  simp only [Bind.bind, Except.bind]
  rw [h5]
  simp only [Bind.bind, Except.bind]
  rw [h6]
  simp only [Bind.bind, Except.bind]
  exact h7

/-- C9: with finite scalar axis projections `cos_a`, `sin_a`, whenever
`wind_shear` succeeds, `wind_shear_normal` succeeds on the same winds and
returns exactly the elementwise negation of the `wind_shear` result.  The
values of `cos_a` and `sin_a` influence the result only through the NaN
check on `dsn_dz`, and whenever that check fires (or the magnitude maximum
is infinite) both functions independently settle on the `0.002` bucket. -/
theorem C9_normal_is_negated_total
    (ut ub vt vb ca sa : Arr Fl) (dz : Fl) (cv sv : ℚ) (out : Arr Fl)
    (hca : ca = Arr.pys (Fl.fin cv) ∨ ca = Arr.nps (Fl.fin cv))
    (hsa : sa = Arr.pys (Fl.fin sv) ∨ sa = Arr.nps (Fl.fin sv))
    (h : wind_shear ut ub vt vb dz = Except.ok out) :
    wind_shear_normal ut ub vt vb ca sa dz =
      Except.ok (out.amap Fl.neg) := by
  obtain ⟨dsA, M, c0, shp, h1, h2, h3, h4, hout⟩ := wind_shear_ok_inv h
  obtain ⟨d1, du, d2, dv, s, m1, m2, m3, m4, m5, m6⟩ := wind_shear_mag_inv h1
  obtain ⟨p, hp, hpel, hpb, hpp⟩ := ewise_scalar_right (f := Fl.mul) dv hca
  obtain ⟨q, hq, hqel, hqb, hqp⟩ := ewise_scalar_right (f := Fl.mul) du hsa
  have js : joinShape du.bshape dv.bshape = Except.ok s.bshape := by
    have e := ewise_bshape m5
    rwa [Arr.bshape_amap, Arr.bshape_amap] at e
  have jpq : joinShape p.bshape q.bshape = Except.ok s.bshape := by
    rw [hpb, hqb, joinShape_comm]
    exact js
  obtain ⟨dsn, hsub⟩ := ewise_ok_of_join (f := Fl.sub) jpq
  have hshp : dsA.bshape = shp := (Arr.shapeAttr_ok_inv h4).2
  have hdsA_b : dsA.bshape = s.bshape := by rw [m6, Arr.bshape_amap]
  have hdsnshp : dsn.bshape = shp := by
    have e := ewise_bshape hsub
    rw [jpq] at e
    injection e with e
    rw [← e, ← hdsA_b]
    exact hshp
  have hpysA : dsA.isPys = false := (Arr.shapeAttr_ok_inv h4).1
  have hpysS : s.isPys = false := by
    rw [m6, Arr.isPys_amap] at hpysA
    exact hpysA
  have hpysDuv : (du.isPys && dv.isPys) = false := by
    have e := ewise_isPys m5
    rw [Arr.isPys_amap, Arr.isPys_amap] at e
    rw [← e]
    exact hpysS
  have hpysN : dsn.isPys = false := by
    have e := ewise_isPys hsub
    rw [hpp, hqp] at e
    rw [e]
    rcases hdu : du.isPys with _ | _
    · simp [hdu]
    · have hdv : dv.isPys = false := by
        rw [hdu] at hpysDuv
        simpa using hpysDuv
      simp [hdv]
  have h4n : dsn.shapeAttr = Except.ok shp := by
    rw [Arr.shapeAttr_of_not_pys hpysN, hdsnshp]
  have hne : dsA.elems ≠ [] := elems_ne_nil_of_npmax h2
  have hsz : shapeSize shp ≠ 0 := by
    have hl := Arr.elems_length_shape hshp
    intro hz
    rw [hz] at hl
    exact hne (List.length_eq_zero.1 hl)
  have hdsnne : dsn.elems ≠ [] := by
    have hl := Arr.elems_length_shape hdsnshp
    intro hz
    rw [hz] at hl
    simp at hl
    exact hsz hl.symm
  have hifeq : (if dsn.elems.any Fl.isNan then (2 / 1000 : ℚ) else c0)
      = (if dsA.elems.any EVal.isNan then (2 / 1000 : ℚ) else c0) := by
    rcases hA : dsA.elems.any EVal.isNan with _ | _
    · rcases hN : dsn.elems.any Fl.isNan with _ | _
      · rfl
      · rw [if_pos rfl, if_neg (fun hc => Bool.noConfusion hc)]
        have hnanN : Fl.nan ∈ dsn.elems := (anyNanF_iff _).1 hN
        have hnoA : EVal.nan ∉ dsA.elems := by
          intro hmem
          rw [(anyNanE_iff _).2 hmem] at hA
          exact Bool.noConfusion hA
        have hnoDu : Fl.nan ∉ du.elems := fun hmem =>
          hnoA (mag_nan_of_du m5 m6 hne hmem)
        have hnoDv : Fl.nan ∉ dv.elems := fun hmem =>
          hnoA (mag_nan_of_dv m5 m6 hne hmem)
        have hpinf : EVal.pinf ∈ dsA.elems := by
          rcases dsn_nan_src hca hsa hp hq hsub hnanN with
            (hg | hg) | ⟨a, ha, hainf⟩ | ⟨b, hb, hbinf⟩
          · exact absurd hg hnoDu
          · exact absurd hg hnoDv
          · exact mag_pinf_of_du_inf m5 m6 hne ha hainf hnoDv
          · exact mag_pinf_of_dv_inf m5 m6 hne hb hbinf hnoDu
        have hMp : M = EVal.pinf :=
          npmax_pinf h2 (allNotNanE hA) (wind_shear_mag_WF h1) hpinf
        rw [hMp, selectBucket_pinf] at h3
        exact Except.ok.inj h3
    · have hnanA : EVal.nan ∈ dsA.elems := (anyNanE_iff _).1 hA
      have hg := mag_nan_src m5 m6 hnanA
      have hnanN : Fl.nan ∈ dsn.elems :=
        dsn_nan_of_grad_nan hp hq hsub hdsnne hg
      rw [(anyNanF_iff _).2 hnanN]
  rw [hout, whereFill_amap_neg, ← hifeq]
  exact wind_shear_normal_run
    (wind_shear_normal_dsn_run m1 m2 m3 m4 hp hq hsub) h1 h2 h3 h4n hsz

theorem C9_witness :
    wind_shear_normal (Arr.vec [Fl.fin 5, Fl.fin 10])
      (Arr.vec [Fl.fin 0, Fl.fin 0]) (Arr.vec [Fl.fin 0, Fl.fin 0])
      (Arr.vec [Fl.fin 0, Fl.fin 0]) (Arr.pys (Fl.fin 1))
      (Arr.pys (Fl.fin 0)) (Fl.fin 1000) =
      Except.ok ((Arr.vec [Fl.fin (6 / 1000), Fl.fin (6 / 1000)]).amap
        Fl.neg) :=
  C9_normal_is_negated_total (Arr.vec [Fl.fin 5, Fl.fin 10])
    (Arr.vec [Fl.fin 0, Fl.fin 0]) (Arr.vec [Fl.fin 0, Fl.fin 0])
    (Arr.vec [Fl.fin 0, Fl.fin 0]) (Arr.pys (Fl.fin 1))
    (Arr.pys (Fl.fin 0)) (Fl.fin 1000) 1 0
    (Arr.vec [Fl.fin (6 / 1000), Fl.fin (6 / 1000)])
    (Or.inl rfl) (Or.inl rfl) (by with_unfolding_all decide)
